import Mathlib

/-!
Verification of the go-dcpp chat hub sources: the ADC packet codec
(adc package, DecodePacket / per-kind UnmarshalPacket / MarshalPacket),
the hub user-name validation and registration (hub/users.go), and the
IRC peer adapter (hub IRC bridge).

Byte strings are modelled as `List Nat` (one Nat per byte).  Go byte
slices carry a capacity beyond their length; the only place where that
matters for observable behaviour is noted at `featLoop` below.
-/

namespace GoDC

/-! ### Byte constants of the ADC wire format -/

def lineDelim : Nat := 10
def spByte : Nat := 32
def plusByte : Nat := 43
def minusByte : Nat := 45

def kindBroadcast : Nat := 66
def kindClient : Nat := 67
def kindDirect : Nat := 68
def kindEcho : Nat := 69
def kindFeature : Nat := 70
def kindHub : Nat := 72
def kindInfo : Nat := 73
def kindUDP : Nat := 85

/-- Bytes of a string literal (ASCII), for writing concrete frames. -/
def strBytes (s : String) : List Nat := s.toList.map Char.toNat

/-- Outcome of a fallible Go computation: a value, a returned `error`,
or a runtime crash (out-of-range slice).  Go's `(T, error)` results map
to `ok`/`err`; a slice-bounds violation maps to `crash`. -/
inductive Res (α : Type) where
  | ok (val : α)
  | err (msg : String)
  | crash
deriving DecidableEq

/-- The base32 alphabet bytes used by ADC SIDs and CIDs:
uppercase letters A-Z and digits 2-7. -/
def isBase32Byte (b : Nat) : Bool := (65 ≤ b && b ≤ 90) || (50 ≤ b && b ≤ 55)

/-- Modelled from the spec: "SID (Session ID) - a short opaque identifier,
4 ASCII characters drawn from a base32-like alphabet in ADC's encoding".
The repository's `SID` type with its `UnmarshalAdc`/`MarshalAdc` lives in
the adc package outside the given sources; we represent a SID by its four
wire bytes. -/
structure SID where
  b1 : Nat
  b2 : Nat
  b3 : Nat
  b4 : Nat
deriving DecidableEq

def SID.validB (s : SID) : Bool :=
  isBase32Byte s.b1 && isBase32Byte s.b2 && isBase32Byte s.b3 && isBase32Byte s.b4

/-- Modelled from the spec: marshalling a SID yields its 4 base32 bytes. -/
def SID.MarshalAdc (s : SID) : List Nat := [s.b1, s.b2, s.b3, s.b4]

/-- Modelled from the spec: decoding a SID consumes exactly 4 bytes of the
base32 alphabet and fails otherwise. -/
def SID.UnmarshalAdc (l : List Nat) : Res SID :=
  if l.length = 4 ∧ l.all isBase32Byte = true then
    .ok ⟨l.getD 0 0, l.getD 1 0, l.getD 2 0, l.getD 3 0⟩
  else .err "invalid SID"

/-- Modelled from the spec: "CID (Client ID) - a stable client-generated
39-character base32 identifier".  The repository's `CID` type with
`FromBase32`/`ToBase32` is outside the given sources; we represent a CID
by its 39 wire characters. -/
structure CID where
  chars : List Nat
deriving DecidableEq

def CID.validB (c : CID) : Bool := c.chars.length == 39 && c.chars.all isBase32Byte

def CID.ToBase32 (c : CID) : List Nat := c.chars

def CID.FromBase32 (l : List Nat) : Res CID :=
  if l.length == 39 && l.all isBase32Byte then .ok ⟨l⟩ else .err "invalid base32"

/-- The 3-byte ADC command name (`MsgType` in the source). -/
structure MsgType where
  c1 : Nat
  c2 : Nat
  c3 : Nat
deriving DecidableEq

/-- The eight ADC packet kinds of the source.  `Data` of the Go structs is
the payload byte slice; a Feature packet additionally records its parsed
feature filter.  The Go `Features map[Feature]bool` is modelled as the
list of `(4 tag bytes, required?)` pairs in insertion order (the map is
nil/empty exactly when the list is `[]`). -/
inductive Packet where
  | info (name : MsgType) (dat : List Nat)
  | hub (name : MsgType) (dat : List Nat)
  | broadcast (name : MsgType) (id : SID) (dat : List Nat)
  | direct (name : MsgType) (id : SID) (targ : SID) (dat : List Nat)
  | echo (name : MsgType) (id : SID) (targ : SID) (dat : List Nat)
  | feature (name : MsgType) (id : SID) (features : List (List Nat × Bool)) (dat : List Nat)
  | client (name : MsgType) (dat : List Nat)
  | udp (name : MsgType) (id : CID) (dat : List Nat)
deriving DecidableEq

/-- `bytes.ContainsAny(p, "\x00")` of `DecodePacket`. -/
def hasNull (l : List Nat) : Bool := l.any (· == 0)

def noNull (l : List Nat) : Bool := !(hasNull l)

/-- Last byte of a slice (`data[len(data)-1]`); callers establish the
slice is nonempty before Go indexes it. -/
def lastByteD (l : List Nat) : Nat := l.getLastD 0

/-- The feature-filter loop of `FeaturePacket.UnmarshalPacket`, lines
683-710 of the source.  State is the current slice `dat` and index `i`;
`acc` records the features inserted so far.  `fuel` only drives the
recursion; every call site passes enough fuel (the loop strictly
decreases `dat.length - i`), and the fuel-exhausted result equals the
loop-exit result so the value never depends on surplus fuel.

Capacity note: at this point in the Go code the slice always has exactly
one spare capacity byte (the stripped `\x0a`), an invariant kept by the
in-loop re-slicings.  The error path for a short trailing feature builds
`string(data[i : i+5])`, which succeeds (reading the stripped delimiter)
when exactly 4 bytes remain from the sigil and crashes with a
slice-bounds panic when 3 or fewer remain; the `i + 5 ≤ dat.length + 1`
test below is that capacity check. -/
def featLoop : Nat → List Nat → Nat → List (List Nat × Bool) →
    Res (List (List Nat × Bool) × List Nat)
  | 0, dat, _, acc => .ok (acc, dat)
  | fuel+1, dat, i, acc =>
    if i < dat.length then
      let c := dat.getD i 0
      if c = plusByte then
        if dat.length - i < 5 then
          if i + 5 ≤ dat.length + 1 then .err "short feature" else .crash
        else
          let fea := (dat.drop (i+1)).take 4
          let dat2 := if i + 5 = dat.length then [] else dat
          featLoop fuel dat2 (i+5) (acc ++ [(fea, true)])
      else if c = minusByte then
        if dat.length - i < 5 then
          if i + 5 ≤ dat.length + 1 then .err "short feature" else .crash
        else
          let fea := (dat.drop (i+1)).take 4
          let dat2 := if i + 5 = dat.length then [] else dat
          featLoop fuel dat2 (i+5) (acc ++ [(fea, false)])
      else if c = spByte then
        let dat2 := dat.drop i
        let dat3 := if dat2.length = 1 then [] else dat2
        featLoop fuel dat3 1 acc
      else
        .ok (acc, dat.drop i)
    else .ok (acc, dat)

/-! ### Per-kind `UnmarshalPacket` (source lines 361-781) -/

def InfoPacket.UnmarshalPacket (name : MsgType) (dat : List Nat) : Res Packet :=
  if dat.length ≠ 0 ∧ lastByteD dat ≠ lineDelim then .err "invalid packet delimiter"
  else .ok (.info name dat.dropLast)

def HubPacket.UnmarshalPacket (name : MsgType) (dat : List Nat) : Res Packet :=
  if dat.length < 1 then .err "short hub command"
  else if lastByteD dat ≠ lineDelim then .err "invalid packet delimiter"
  else .ok (.hub name dat.dropLast)

def ClientPacket.UnmarshalPacket (name : MsgType) (dat : List Nat) : Res Packet :=
  if dat.length < 1 then .err "short client command"
  else if lastByteD dat ≠ lineDelim then .err "invalid packet delimiter"
  else .ok (.client name dat.dropLast)

def BroadcastPacket.UnmarshalPacket (name : MsgType) (dat : List Nat) : Res Packet :=
  if dat.length < 4 then .err "short broadcast command"
  else if lastByteD dat ≠ lineDelim then .err "invalid packet delimiter"
  else if dat.length > 4 ∧ dat.getD 4 0 ≠ spByte ∧ dat.getD 4 0 ≠ lineDelim then
    .err "separator expected"
  else
    let d := dat.dropLast
    match SID.UnmarshalAdc (d.take 4) with
    | .ok id => .ok (.broadcast name id (if d.length > 5 then d.drop 5 else []))
    | .err e => .err e
    | .crash => .crash

def DirectPacket.UnmarshalPacket (name : MsgType) (dat : List Nat) : Res Packet :=
  if dat.length < 9 then .err "short direct command"
  else if lastByteD dat ≠ lineDelim then .err "invalid packet delimiter"
  else if dat.getD 4 0 ≠ spByte then .err "separator expected"
  else if dat.length > 9 ∧ dat.getD 9 0 ≠ spByte ∧ dat.getD 9 0 ≠ lineDelim then
    .err "separator expected"
  else
    let d := dat.dropLast
    match SID.UnmarshalAdc (d.take 4) with
    | .ok id =>
      match SID.UnmarshalAdc ((d.drop 5).take 4) with
      | .ok targ => .ok (.direct name id targ (if d.length > 10 then d.drop 10 else []))
      | .err e => .err e
      | .crash => .crash
    | .err e => .err e
    | .crash => .crash

def EchoPacket.UnmarshalPacket (name : MsgType) (dat : List Nat) : Res Packet :=
  if dat.length < 9 then .err "short echo command"
  else if lastByteD dat ≠ lineDelim then .err "invalid packet delimiter"
  else if dat.getD 4 0 ≠ spByte then .err "separator expected"
  else if dat.length > 9 ∧ dat.getD 9 0 ≠ spByte ∧ dat.getD 9 0 ≠ lineDelim then
    .err "separator expected"
  else
    let d := dat.dropLast
    match SID.UnmarshalAdc (d.take 4) with
    | .ok id =>
      match SID.UnmarshalAdc ((d.drop 5).take 4) with
      | .ok targ => .ok (.echo name id targ (if d.length > 10 then d.drop 10 else []))
      | .err e => .err e
      | .crash => .crash
    | .err e => .err e
    | .crash => .crash

def FeaturePacket.UnmarshalPacket (name : MsgType) (dat : List Nat) : Res Packet :=
  if dat.length < 4 then .err "short feature command"
  else if lastByteD dat ≠ lineDelim then .err "invalid packet delimiter"
  else if dat.length > 4 ∧ dat.getD 4 0 ≠ spByte ∧ dat.getD 4 0 ≠ lineDelim then
    .err "separator expected"
  else
    let d := dat.dropLast
    match SID.UnmarshalAdc (d.take 4) with
    | .ok id =>
      let region := if d.length > 5 then d.drop 5 else []
      match featLoop (region.length + 1) region 0 [] with
      | .ok (feats, payload) => .ok (.feature name id feats payload)
      | .err e => .err e
      | .crash => .crash
    | .err e => .err e
    | .crash => .crash

def UDPPacket.UnmarshalPacket (name : MsgType) (dat : List Nat) : Res Packet :=
  if dat.length < 39 then .err "short upd command"
  else if lastByteD dat ≠ lineDelim then .err "invalid packet delimiter"
  else if dat.length > 39 ∧ dat.getD 39 0 ≠ spByte ∧ dat.getD 39 0 ≠ lineDelim then
    .err "separator expected"
  else
    let d := dat.dropLast
    match CID.FromBase32 (d.take 39) with
    | .ok id => .ok (.udp name id (if d.length > 40 then d.drop 40 else []))
    | .err e => .err ("wrong CID in upd command: " ++ e)
    | .crash => .crash

/-! ### `DecodePacket` (source lines 306-350) -/

/-- The name-separator scan of `DecodePacket`: after the kind byte and the
3-byte name, `raw` is the rest of the frame past a space, nil if the next
byte is the line delimiter, and an error otherwise.  (Go leaves `raw` nil
also when nothing follows the name.) -/
def parseRaw : List Nat → Res (List Nat)
  | [] => .ok []
  | c :: t => if c = spByte then .ok t else if c ≠ lineDelim then .err "name separator expected" else .ok []

def knownKindB (k : Nat) : Bool :=
  k == kindInfo || k == kindHub || k == kindEcho || k == kindDirect ||
  k == kindBroadcast || k == kindFeature || k == kindClient || k == kindUDP

def unmarshalByKind (k : Nat) (name : MsgType) (raw : List Nat) : Res Packet :=
  if k = kindInfo then InfoPacket.UnmarshalPacket name raw
  else if k = kindHub then HubPacket.UnmarshalPacket name raw
  else if k = kindEcho then EchoPacket.UnmarshalPacket name raw
  else if k = kindDirect then DirectPacket.UnmarshalPacket name raw
  else if k = kindBroadcast then BroadcastPacket.UnmarshalPacket name raw
  else if k = kindFeature then FeaturePacket.UnmarshalPacket name raw
  else if k = kindClient then ClientPacket.UnmarshalPacket name raw
  else if k = kindUDP then UDPPacket.UnmarshalPacket name raw
  else .err "unknown command kind"

def DecodePacket (p : List Nat) : Res Packet :=
  if p.length < 5 then .err "too short for command"
  else if hasNull p then .err "messages should not contain null characters"
  else match p with
  | k :: a :: b :: c :: rest =>
    if knownKindB k then
      match parseRaw rest with
      | .ok raw => unmarshalByKind k ⟨a, b, c⟩ raw
      | .err e => .err e
      | .crash => .crash
    else .err "unknown command kind"
  | _ => .err "too short for command"

/-! ### Per-kind `MarshalPacket` -/

def sigByte (b : Bool) : Nat := if b then plusByte else minusByte

/-- Wire bytes of the feature tokens, one ` ±XXXX` group per feature, in
the order the marshaller iterates them. -/
def flatToks (fs : List (List Nat × Bool)) : List Nat :=
  fs.flatMap (fun t => spByte :: sigByte t.2 :: t.1)

/-- The optional payload section: one extra space before a non-empty
payload, nothing for an empty one. -/
def tailPart (dat : List Nat) : List Nat := if dat = [] then [] else spByte :: dat

/-- `MarshalPacket` of each kind (source lines 372-798): kind byte, name,
space-separated addressing, feature tokens, optional payload, `\x0a`. -/
def MarshalPacket : Packet → List Nat
  | .info n d => kindInfo :: n.c1 :: n.c2 :: n.c3 :: (tailPart d ++ [lineDelim])
  | .hub n d => kindHub :: n.c1 :: n.c2 :: n.c3 :: (tailPart d ++ [lineDelim])
  | .client n d => kindClient :: n.c1 :: n.c2 :: n.c3 :: (tailPart d ++ [lineDelim])
  | .broadcast n s d =>
    kindBroadcast :: n.c1 :: n.c2 :: n.c3 :: spByte ::
      s.b1 :: s.b2 :: s.b3 :: s.b4 :: (tailPart d ++ [lineDelim])
  | .direct n s t d =>
    kindDirect :: n.c1 :: n.c2 :: n.c3 :: spByte ::
      s.b1 :: s.b2 :: s.b3 :: s.b4 :: spByte ::
      t.b1 :: t.b2 :: t.b3 :: t.b4 :: (tailPart d ++ [lineDelim])
  | .echo n s t d =>
    kindEcho :: n.c1 :: n.c2 :: n.c3 :: spByte ::
      s.b1 :: s.b2 :: s.b3 :: s.b4 :: spByte ::
      t.b1 :: t.b2 :: t.b3 :: t.b4 :: (tailPart d ++ [lineDelim])
  | .feature n s fs d =>
    kindFeature :: n.c1 :: n.c2 :: n.c3 :: spByte ::
      s.b1 :: s.b2 :: s.b3 :: s.b4 :: (flatToks fs ++ tailPart d ++ [lineDelim])
  | .udp n c d =>
    kindUDP :: n.c1 :: n.c2 :: n.c3 :: spByte :: (c.ToBase32 ++ tailPart d ++ [lineDelim])

/-! ### Well-formedness of a packet (the codec's implicit contract) -/

def MsgType.wfB (n : MsgType) : Bool := n.c1 ≠ 0 && n.c2 ≠ 0 && n.c3 ≠ 0

def tagWfB (t : List Nat × Bool) : Bool := t.1.length == 4 && noNull t.1

/-- The wire cannot represent a Feature payload whose first byte is a
sigil or a space: the parser would read it as part of the feature list
(spec 4.1, feature filter parsing). -/
def payloadHeadOk (d : List Nat) : Bool :=
  d = [] || (d.getD 0 0 ≠ plusByte && d.getD 0 0 ≠ minusByte && d.getD 0 0 ≠ spByte)

/-- A packet the codec can faithfully represent: non-null name and payload
bytes, valid base32 addressing, 4-byte non-null feature tags, and (for
Feature packets) a payload not starting with a sigil or space. -/
def WellFormedB : Packet → Bool
  | .info n d => n.wfB && noNull d
  | .hub n d => n.wfB && noNull d
  | .client n d => n.wfB && noNull d
  | .broadcast n s d => n.wfB && s.validB && noNull d
  | .direct n s t d => n.wfB && s.validB && t.validB && noNull d
  | .echo n s t d => n.wfB && s.validB && t.validB && noNull d
  | .feature n s fs d =>
    n.wfB && s.validB && fs.all tagWfB && noNull d && payloadHeadOk d
  | .udp n c d => n.wfB && c.validB && noNull d

/-! ### Hub user-name validation and registration (hub/users.go) -/

/-- `unicode.IsSpace` of Go, the character classifier behind
`strings.TrimSpace`: ASCII whitespace plus the Unicode White_Space
code points. -/
def goIsSpace (c : Char) : Bool :=
  c.toNat = 32 || c.toNat = 9 || c.toNat = 10 || c.toNat = 11 || c.toNat = 12 ||
  c.toNat = 13 || c.toNat = 133 || c.toNat = 160 || c.toNat = 5760 ||
  (8192 ≤ c.toNat && c.toNat ≤ 8202) ||
  c.toNat = 8232 || c.toNat = 8233 || c.toNat = 8239 || c.toNat = 8287 || c.toNat = 12288

/-- `strings.TrimSpace` on the character list: drop leading and trailing
whitespace. -/
def goTrimList (l : List Char) : List Char :=
  ((l.dropWhile goIsSpace).reverse.dropWhile goIsSpace).reverse

/-- `Hub.validateUserName` (hub/users.go lines 19-30).  Error strings
follow the source (apostrophes elided). -/
def validateUserName (name : String) : Option String :=
  if name.toList = [] then some "name should be empty"
  else if name.toList.headD ' ' = '#' then some "name should not start with #"
  else if name.toList.headD ' ' = '!' then some "name should not start with !"
  else if name.toList ≠ goTrimList name.toList then
    some "name should not start or end with spaces"
  else none

/-- Result of a user-database registration call. -/
inductive RegResult where
  | ok
  | fail (msg : String)
deriving DecidableEq

def ErrUserRegDisabled : String := "user registration is disabled"

/-- `Hub.RegisterUser` (hub/users.go lines 32-37): the optional user
database is the function a configured backend would run; with no backend
the call returns the registration-disabled error and touches nothing. -/
def Hub.RegisterUser (userDB : Option (String → String → RegResult))
    (name pass : String) : RegResult :=
  match userDB with
  | none => .fail ErrUserRegDisabled
  | some db => db name pass

/-- `memUsersDB.RegisterUser` (hub/users.go lines 72-77) on its map of
users: always succeeds, storing the password. -/
def memUsersDB.RegisterUser (users : List (String × String)) (name pass : String) :
    List (String × String) × RegResult :=
  ((name, pass) :: users.filter (fun u => u.1 ≠ name), .ok)

/-! ### The IRC peer adapter (hub IRC bridge source) -/

structure IrcPref where
  pname : String
  puser : String
  phost : String
deriving DecidableEq

structure IrcMsg where
  pref : Option IrcPref
  command : String
  params : List String
deriving DecidableEq

def ircHubChan : String := "#hub"

/-- Modelled from the spec: the nickname-taken error text behind
`errNickTaken` (declared outside the given sources): "Collision errors:
nickname taken". -/
def errNickTaken : String := "nick taken"

/-- The `433 * <name> :<reason>` reply of the handshake loop. -/
def mk433 (hp : IrcPref) (n : String) : IrcMsg := ⟨some hp, "433", ["*", n, errNickTaken]⟩

/-- Modelled from the spec: `Hub.nameAvailable` ("available(name) - true
iff no live and no reserved entry holds name"); the hub's name set is the
`taken` list. -/
def nameAvailable (n : String) (taken : List String) : Bool := !(taken.contains n)

/-- Modelled from the spec: `Hub.reserveName` atomically re-checks
availability and installs the reservation; in this sequential model its
success is exactly availability. -/
def reserveOk (n : String) (taken : List String) : Bool := nameAvailable n taken

/-- Result of the IRC NICK handshake loop: the accepted name and USER
identity, or failure; either way, the `433` replies written so far. -/
inductive HSResult where
  | accepted (name user : String) (sent : List IrcMsg)
  | failed (reason : String) (sent : List IrcMsg)
deriving DecidableEq

/-- The NICK loop of `Hub.ircHandshake` (IRC bridge source lines 91-140).
`inputs` is the stream of client messages (an exhausted stream is a read
error), `prev` the name accepted by the previous iteration (`""` on the
first, so a `USER` command must follow the `NICK`), `sent` the replies
written so far.  Validation failure returns the error; an unavailable
name is answered with a 433 and the loop repeats.  `fuel` only drives
the recursion: one unit is spent per iteration, each iteration consumes
at least one input, and the fuel-exhausted result equals the
exhausted-input result, so any fuel of at least the input length gives
the loop's behaviour. -/
def nickLoop (hp : IrcPref) (taken : List String) :
    Nat → List IrcMsg → String → String → List IrcMsg → HSResult
  | 0, _, _, _, sent => .failed "expected nick: read error" sent
  | fuel+1, inputs, prev, user, sent =>
    match inputs with
    | [] => .failed "expected nick: read error" sent
    | m :: rest =>
      if ¬(m.command = "NICK" ∧ m.params.length = 1) then .failed "expected nick" sent
      else
        let tname := m.params.getD 0 ""
        if prev = "" then
          match rest with
          | [] => .failed "expected user: read error" sent
          | m2 :: rest2 =>
            if ¬(m2.command = "USER" ∧ m2.params.length = 4) then
              .failed "expected user" sent
            else
              match validateUserName tname with
              | some e => .failed e sent
              | none =>
                if ¬nameAvailable tname taken then
                  nickLoop hp taken fuel rest2 tname (m2.params.getD 0 "")
                    (sent ++ [mk433 hp tname])
                else if ¬reserveOk tname taken then
                  nickLoop hp taken fuel rest2 tname (m2.params.getD 0 "")
                    (sent ++ [mk433 hp tname])
                else .accepted tname (m2.params.getD 0 "") sent
        else
          match validateUserName tname with
          | some e => .failed e sent
          | none =>
            if ¬nameAvailable tname taken then
              nickLoop hp taken fuel rest tname user (sent ++ [mk433 hp tname])
            else if ¬reserveOk tname taken then
              nickLoop hp taken fuel rest tname user (sent ++ [mk433 hp tname])
            else .accepted tname user sent

/-- The close-relevant state of an `ircPeer`: the `closed` bit, and how
often the connection was closed and `hub.leave` invoked. -/
structure IrcPeerLife where
  closed : Bool
  connCloses : Nat
  leaves : Nat
deriving DecidableEq

/-- `ircPeer.Close` (IRC bridge source lines 351-364): a second close
returns nil immediately; the first closes the connection (result
`connErr`), sets the bit and calls `hub.leave` once. -/
def ircPeer.Close (connErr : Option String) (s : IrcPeerLife) :
    IrcPeerLife × Option String :=
  if s.closed then (s, none)
  else (⟨true, s.connCloses + 1, s.leaves + 1⟩, connErr)

/-- `n` successive `Close` calls. -/
def closeIter (connErr : Option String) : Nat → IrcPeerLife → IrcPeerLife
  | 0, s => s
  | n+1, s => closeIter connErr n (ircPeer.Close connErr s).1

/-- A reference to a peer as `ircPeer.ChatMsg` sees its sender argument:
its identity (Go compares interface pointers; distinct peers have
distinct `pid`), whether it is an IRC peer, and if so its own prefix. -/
structure PeerRef where
  pid : Nat
  isIrc : Bool
  ownPref : IrcPref
deriving DecidableEq

/-- `ircPeer.ChatMsg` (IRC bridge source lines 432-455): no echo to the
sender, named rooms unimplemented, otherwise exactly one PRIVMSG to the
#hub channel; `writeErr` is the connection write result. -/
def ircPeer.ChatMsg (writeErr : Option String) (p : PeerRef) (hostName : String)
    (roomName : String) (sender : PeerRef) (msgName msgText : String) :
    List IrcMsg × Option String :=
  if p.pid = sender.pid then ([], none)
  else if roomName ≠ "" then ([], none)
  else
    let pr := if sender.isIrc then sender.ownPref else ⟨msgName, msgName, hostName⟩
    ([⟨some pr, "PRIVMSG", [ircHubChan, msgText]⟩], writeErr)

/-- What one `PRIVMSG` dispatch of `Hub.ServeIRC` causes. -/
inductive ServeEvent where
  | globalChat (senderId : Nat) (text : String)
  | privateTo (targetId : Nat) (fromId : Nat) (msgName : String) (msgText : String)
deriving DecidableEq

/-- Outcome of one loop step of `Hub.ServeIRC`: keep serving (with the
routing events it caused) or fail the connection. -/
inductive ServeStep where
  | cont (events : List ServeEvent)
  | fatal (reason : String)
deriving DecidableEq

/-- The `PRIVMSG` arm of `Hub.ServeIRC` (IRC bridge source lines 54-66).
`byName` is the hub's name directory (`Hub.PeerByName`, modelled from the
spec: nil when no live peer holds the name); `privateChat` is modelled
from the spec as invoking the target's `PrivateMsg` with the sender's
current name on the message. -/
def servePrivmsgStep (byName : String → Option Nat) (senderId : Nat)
    (senderName : String) (params : List String) : ServeStep :=
  if params.length ≠ 2 then .fatal "invalid chat command"
  else
    let dst := params.getD 0 ""
    let text := params.getD 1 ""
    if dst = ircHubChan then .cont [.globalChat senderId text]
    else
      match byName dst with
      | some t => .cont [.privateTo t senderId senderName text]
      | none => .cont []

/-! ### Statement vocabulary for the claims -/

/-- Hub and Client packets with an empty payload: the two shapes whose
marshalled frame the decoder does not accept back. -/
def emptyPayloadHubOrClient : Packet → Bool
  | .hub _ [] => true
  | .client _ [] => true
  | _ => false

/-- The minimum frame length of each packet kind: 1 kind byte, 3 name
bytes, and the kind's mandatory separator/addressing/payload/delimiter
bytes (5-byte overall minimum for unknown kinds). -/
def minFrameLen (k : Nat) : Nat :=
  if k = kindInfo then 5
  else if k = kindHub then 6
  else if k = kindClient then 6
  else if k = kindBroadcast then 10
  else if k = kindFeature then 10
  else if k = kindDirect then 15
  else if k = kindEcho then 15
  else if k = kindUDP then 45
  else 5

/-- The spec's "printable" nickname requirement (data model: "printable
non-empty byte string"): every character is a printable ASCII code. -/
def specPrintable (s : String) : Bool :=
  s.toList.all (fun c => 32 ≤ c.toNat && c.toNat ≤ 126)

/-- The spec's "no leading or trailing whitespace" nickname rule, stated
directly on the first and last character. -/
def noEdgeSpace (s : String) : Bool :=
  match s.toList with
  | [] => true
  | l => !goIsSpace (l.headD ' ') && !goIsSpace (l.getLastD ' ')

/-! ### List helpers -/

lemma getD_cons_z (a : Nat) (l : List Nat) (d : Nat) : (a :: l).getD 0 d = a := rfl

lemma getD_cons_s (a : Nat) (l : List Nat) (n d : Nat) : (a :: l).getD (n+1) d = l.getD n d := rfl

lemma getD_app (junk X : List Nat) (i d : Nat) :
    (junk ++ X).getD (junk.length + i) d = X.getD i d := by
  induction junk with
  | nil => simp
  | cons a t ih =>
    have h : t.length + 1 + i = (t.length + i) + 1 := by omega
    simp only [List.cons_append, List.length_cons, h, getD_cons_s, ih]

lemma drop_app (junk X : List Nat) (i : Nat) :
    (junk ++ X).drop (junk.length + i) = X.drop i := by
  induction junk with
  | nil => simp
  | cons a t ih =>
    have h : t.length + 1 + i = (t.length + i) + 1 := by omega
    simp only [List.cons_append, List.length_cons, h, List.drop_succ_cons, ih]

lemma lastD_concat (l : List Nat) (a d : Nat) : (l ++ [a]).getLastD d = a := by
  induction l generalizing d with
  | nil => rfl
  | cons b t ih =>
    rw [List.cons_append, List.getLastD_cons]
    exact ih b

lemma featLoop_nil (fuel i : Nat) (acc : List (List Nat × Bool)) :
    featLoop fuel [] i acc = .ok (acc, []) := by
  cases fuel <;> simp [featLoop]

lemma hasNull_append (l1 l2 : List Nat) :
    hasNull (l1 ++ l2) = (hasNull l1 || hasNull l2) := by
  simp [hasNull]

lemma hasNull_cons (a : Nat) (l : List Nat) : hasNull (a :: l) = ((a == 0) || hasNull l) := by
  simp [hasNull]

lemma isBase32_pos {b : Nat} (h : isBase32Byte b = true) : b ≠ 0 := by
  simp [isBase32Byte] at h
  omega

lemma SID.unmarshal_marshal (s : SID) (h : s.validB = true) :
    SID.UnmarshalAdc [s.b1, s.b2, s.b3, s.b4] = .ok s := by
  cases s
  simp [SID.validB] at h
  simp [SID.UnmarshalAdc, h.1.1.1, h.1.1.2, h.1.2, h.2, getD_cons_z, getD_cons_s]

lemma CID.from_to (c : CID) (h : c.validB = true) :
    CID.FromBase32 c.ToBase32 = .ok c := by
  cases c
  simp [CID.validB] at h
  simp only [CID.FromBase32, CID.ToBase32, h.1, beq_self_eq_true, Bool.true_and]
  rw [if_pos]
  simp only [List.all_eq_true]
  exact h.2

/-! ### Single-iteration lemmas for the feature loop -/

lemma featLoop_exit (fuel : Nat) (dat : List Nat) (i : Nat)
    (acc : List (List Nat × Bool)) (hi : ¬ i < dat.length) :
    featLoop fuel dat i acc = .ok (acc, dat) := by
  cases fuel with
  | zero => rfl
  | succ f => simp only [featLoop]; rw [if_neg hi]

lemma featLoop_sig (f : Nat) (dat : List Nat) (i : Nat) (acc : List (List Nat × Bool))
    (sgn : Bool) (hi : i < dat.length) (hc : dat.getD i 0 = sigByte sgn)
    (hrem : ¬ dat.length - i < 5) (hne : ¬ i + 5 = dat.length) :
    featLoop (f+1) dat i acc
      = featLoop f dat (i+5) (acc ++ [((dat.drop (i+1)).take 4, sgn)]) := by
  rw [List.getD_eq_getElem dat 0 hi] at hc
  cases sgn <;>
    simp_all [featLoop, hi, sigByte, plusByte, minusByte, spByte]

lemma featLoop_sig_end (f : Nat) (dat : List Nat) (i : Nat) (acc : List (List Nat × Bool))
    (sgn : Bool) (hi : i < dat.length) (hc : dat.getD i 0 = sigByte sgn)
    (hrem : ¬ dat.length - i < 5) (hend : i + 5 = dat.length) :
    featLoop (f+1) dat i acc = .ok (acc ++ [((dat.drop (i+1)).take 4, sgn)], []) := by
  rw [List.getD_eq_getElem dat 0 hi] at hc
  cases sgn <;>
    simp_all [featLoop, hi, sigByte, plusByte, minusByte, spByte, featLoop_nil]

lemma featLoop_short (f : Nat) (dat : List Nat) (i : Nat) (acc : List (List Nat × Bool))
    (sgn : Bool) (hi : i < dat.length) (hc : dat.getD i 0 = sigByte sgn)
    (hrem : dat.length - i < 5) (hcap : i + 5 ≤ dat.length + 1) :
    featLoop (f+1) dat i acc = .err "short feature" := by
  rw [List.getD_eq_getElem dat 0 hi] at hc
  cases sgn <;>
    simp_all [featLoop, hi, sigByte, plusByte, minusByte, spByte]

lemma featLoop_short_crash (f : Nat) (dat : List Nat) (i : Nat)
    (acc : List (List Nat × Bool)) (sgn : Bool) (hi : i < dat.length)
    (hc : dat.getD i 0 = sigByte sgn) (hrem : dat.length - i < 5)
    (hcap : ¬ i + 5 ≤ dat.length + 1) :
    featLoop (f+1) dat i acc = .crash := by
  rw [List.getD_eq_getElem dat 0 hi] at hc
  cases sgn <;>
    simp_all [featLoop, hi, sigByte, plusByte, minusByte, spByte]

lemma featLoop_space (f : Nat) (dat : List Nat) (i : Nat) (acc : List (List Nat × Bool))
    (hi : i < dat.length) (hc : dat.getD i 0 = spByte)
    (hne : ¬ (dat.drop i).length = 1) :
    featLoop (f+1) dat i acc = featLoop f (dat.drop i) 1 acc := by
  rw [List.getD_eq_getElem dat 0 hi] at hc
  simp_all [featLoop, hi, spByte, plusByte, minusByte]

lemma featLoop_space_end (f : Nat) (dat : List Nat) (i : Nat) (acc : List (List Nat × Bool))
    (hi : i < dat.length) (hc : dat.getD i 0 = spByte)
    (hone : (dat.drop i).length = 1) :
    featLoop (f+1) dat i acc = .ok (acc, []) := by
  rw [List.getD_eq_getElem dat 0 hi] at hc
  simp_all [featLoop, hi, spByte, plusByte, minusByte, featLoop_nil]

lemma featLoop_stop (f : Nat) (dat : List Nat) (i : Nat) (acc : List (List Nat × Bool))
    (hi : i < dat.length) (hp : ¬ dat.getD i 0 = plusByte)
    (hm : ¬ dat.getD i 0 = minusByte) (hs : ¬ dat.getD i 0 = spByte) :
    featLoop (f+1) dat i acc = .ok (acc, dat.drop i) := by
  rw [List.getD_eq_getElem dat 0 hi] at hp hm hs
  simp_all [featLoop, hi, spByte, plusByte, minusByte]

/-! ### The feature loop on rendered token lists -/

/-- The loop is insensitive to dead bytes before the window it scans:
running it on junk followed by the live window equals running it on the
window alone (the in-loop re-slicing normalises both sides). -/
lemma featLoop_shift (fuel : Nat) (junk X : List Nat) (i : Nat)
    (acc : List (List Nat × Bool)) (hf : X.length - i < fuel) (hi : i < X.length) :
    featLoop fuel (junk ++ X) (junk.length + i) acc = featLoop fuel X i acc := by
  induction fuel generalizing junk X i acc with
  | zero => omega
  | succ f ih =>
    have hlenA : (junk ++ X).length = junk.length + X.length := List.length_append _ _
    have hlt : junk.length + i < (junk ++ X).length := by omega
    have hgd : (junk ++ X).getD (junk.length + i) 0 = X.getD i 0 := getD_app _ _ _ _
    have hdp : (junk ++ X).drop (junk.length + i) = X.drop i := drop_app _ _ _
    have hdp1 : (junk ++ X).drop (junk.length + i + 1) = X.drop (i + 1) := by
      have h := drop_app junk X (i + 1)
      rw [Nat.add_assoc]; exact h
    by_cases hp : X.getD i 0 = plusByte
    · by_cases hrem : X.length - i < 5
      · by_cases hcap : i + 5 ≤ X.length + 1
        · rw [featLoop_short f _ _ _ true hlt (by rw [hgd]; exact hp) (by omega) (by omega),
            featLoop_short f _ _ _ true hi hp hrem hcap]
        · rw [featLoop_short_crash f _ _ _ true hlt (by rw [hgd]; exact hp) (by omega)
              (by omega),
            featLoop_short_crash f _ _ _ true hi hp hrem hcap]
      · by_cases hend : i + 5 = X.length
        · rw [featLoop_sig_end f _ _ _ true hlt (by rw [hgd]; exact hp) (by omega) (by omega),
            featLoop_sig_end f _ _ _ true hi hp hrem hend, hdp1]
        · rw [featLoop_sig f _ _ _ true hlt (by rw [hgd]; exact hp) (by omega) (by omega),
            featLoop_sig f _ _ _ true hi hp hrem hend, hdp1]
          have harr : junk.length + i + 5 = junk.length + (i + 5) := by omega
          rw [harr]
          exact ih junk X (i + 5) _ (by omega) (by omega)
    · by_cases hm : X.getD i 0 = minusByte
      · by_cases hrem : X.length - i < 5
        · by_cases hcap : i + 5 ≤ X.length + 1
          · rw [featLoop_short f _ _ _ false hlt (by rw [hgd]; exact hm) (by omega) (by omega),
              featLoop_short f _ _ _ false hi hm hrem hcap]
          · rw [featLoop_short_crash f _ _ _ false hlt (by rw [hgd]; exact hm) (by omega)
                (by omega),
              featLoop_short_crash f _ _ _ false hi hm hrem hcap]
        · by_cases hend : i + 5 = X.length
          · rw [featLoop_sig_end f _ _ _ false hlt (by rw [hgd]; exact hm) (by omega)
                (by omega),
              featLoop_sig_end f _ _ _ false hi hm hrem hend, hdp1]
          · rw [featLoop_sig f _ _ _ false hlt (by rw [hgd]; exact hm) (by omega) (by omega),
              featLoop_sig f _ _ _ false hi hm hrem hend, hdp1]
            have harr : junk.length + i + 5 = junk.length + (i + 5) := by omega
            rw [harr]
            exact ih junk X (i + 5) _ (by omega) (by omega)
      · by_cases hs : X.getD i 0 = spByte
        · by_cases hone : (X.drop i).length = 1
          · rw [featLoop_space_end f _ _ _ hlt (by rw [hgd]; exact hs) (by rw [hdp]; exact hone),
              featLoop_space_end f _ _ _ hi hs hone]
          · rw [featLoop_space f _ _ _ hlt (by rw [hgd]; exact hs) (by rw [hdp]; exact hone),
              featLoop_space f _ _ _ hi hs hone, hdp]
        · rw [featLoop_stop f _ _ _ hlt (by rw [hgd]; exact hp) (by rw [hgd]; exact hm)
              (by rw [hgd]; exact hs),
            featLoop_stop f _ _ _ hi hp hm hs, hdp]

/-- Starting at a rendered feature token, the loop collects that token
and all following ones and stops exactly at the payload. -/
lemma featLoop_render (fs : List (List Nat × Bool)) (tag : List Nat) (sgn : Bool)
    (d : List Nat) (acc : List (List Nat × Bool)) (fuel : Nat)
    (hlen : tag.length = 4) (hts : ∀ t ∈ fs, t.1.length = 4)
    (hd : payloadHeadOk d = true)
    (hf : (sigByte sgn :: (tag ++ (flatToks fs ++ tailPart d))).length < fuel) :
    featLoop fuel (sigByte sgn :: (tag ++ (flatToks fs ++ tailPart d))) 0 acc =
      .ok (acc ++ (tag, sgn) :: fs, d) := by
  induction fs generalizing tag sgn acc fuel with
  | nil =>
    have htake : tag.take 4 = tag := by rw [← hlen, List.take_length]
    by_cases hde : d = []
    · subst hde
      rw [show flatToks [] ++ tailPart [] = [] from rfl, List.append_nil] at hf ⊢
      have hL : (sigByte sgn :: tag).length = 5 := by simp [hlen]
      match fuel, hf with
      | f + 1, hf =>
        rw [featLoop_sig_end f (sigByte sgn :: tag) 0 acc sgn (by omega) rfl (by omega)
          (by omega)]
        simp [htake]
    · rw [show flatToks [] ++ tailPart d = tailPart d from rfl,
        show tailPart d = spByte :: d from by simp [tailPart, hde]] at hf ⊢
      have hdl : 0 < d.length := List.length_pos.mpr hde
      have hR : sigByte sgn :: (tag ++ spByte :: d) =
          (sigByte sgn :: tag) ++ (spByte :: d) := by simp
      have hL : (sigByte sgn :: (tag ++ spByte :: d)).length = 6 + d.length := by
        simp [hlen]
        omega
      have hJ : (sigByte sgn :: tag).length = 5 := by simp [hlen]
      match fuel, hf with
      | f + 1, hf =>
        rw [featLoop_sig f (sigByte sgn :: (tag ++ spByte :: d)) 0 acc sgn (by omega) rfl
          (by omega) (by omega)]
        simp only [Nat.zero_add, List.drop_succ_cons, List.drop_zero]
        rw [show (tag ++ spByte :: d).take 4 = tag from by rw [← hlen, List.take_left]]
        match f, (by omega : 6 + d.length < f + 1) with
        | f2 + 1, hf2 =>
          rw [featLoop_space f2 (sigByte sgn :: (tag ++ spByte :: d)) 5 (acc ++ [(tag, sgn)])
            (by omega)
            (by rw [hR, show (5 : Nat) = (sigByte sgn :: tag).length + 0 from by
                rw [hJ], getD_app]
                rfl)
            (by rw [hR, show (5 : Nat) = (sigByte sgn :: tag).length + 0 from by
                rw [hJ], drop_app]
                simp only [List.drop_zero, List.length_cons]
                omega)]
          rw [hR, show (5 : Nat) = (sigByte sgn :: tag).length + 0 from by rw [hJ], drop_app]
          simp only [List.drop_zero]
          have hshift := featLoop_shift f2 [spByte] d 0 (acc ++ [(tag, sgn)])
            (by omega) hdl
          simp only [List.length_cons, List.length_nil, Nat.zero_add, List.cons_append,
            List.nil_append, Nat.add_zero] at hshift
          rw [hshift]
          simp only [payloadHeadOk, Bool.or_eq_true, Bool.and_eq_true, decide_eq_true_eq] at hd
          rcases hd with hd | hd
          · exact absurd hd hde
          match f2, (by omega : 0 < f2) with
          | f3 + 1, _ =>
            rw [featLoop_stop f3 d 0 (acc ++ [(tag, sgn)]) hdl hd.1.1 hd.1.2 hd.2]
            simp
  | cons t fs2 ih =>
    have htlen : t.1.length = 4 := hts t (List.mem_cons_self _ _)
    have hflat : flatToks (t :: fs2) =
        spByte :: (sigByte t.2 :: (t.1 ++ flatToks fs2)) := by
      simp [flatToks]
    rw [hflat] at hf ⊢
    have hR : sigByte sgn :: (tag ++ ((spByte :: (sigByte t.2 :: (t.1 ++ flatToks fs2))) ++
        tailPart d)) =
        (sigByte sgn :: tag) ++
          (spByte :: (sigByte t.2 :: (t.1 ++ (flatToks fs2 ++ tailPart d)))) := by simp
    have hJ : (sigByte sgn :: tag).length = 5 := by simp [hlen]
    have hYlen : (sigByte t.2 :: (t.1 ++ (flatToks fs2 ++ tailPart d))).length =
        5 + (flatToks fs2 ++ tailPart d).length := by
      simp [htlen]
      omega
    have hRlen : (sigByte sgn :: (tag ++ ((spByte :: (sigByte t.2 :: (t.1 ++ flatToks fs2))) ++
        tailPart d))).length =
        11 + (flatToks fs2 ++ tailPart d).length := by
      rw [hR]
      simp only [List.length_append, List.length_cons, hlen, htlen]
      omega
    match fuel, hf with
    | f + 1, hf =>
      rw [featLoop_sig f (sigByte sgn :: (tag ++ ((spByte :: (sigByte t.2 ::
          (t.1 ++ flatToks fs2))) ++ tailPart d))) 0 acc sgn (by omega) rfl
        (by omega) (by omega)]
      simp only [Nat.zero_add, List.drop_succ_cons, List.drop_zero]
      rw [show (tag ++ ((spByte :: (sigByte t.2 :: (t.1 ++ flatToks fs2))) ++
          tailPart d)).take 4 = tag from by rw [← hlen, List.take_left]]
      match f, (by omega : 10 + (flatToks fs2 ++ tailPart d).length < f) with
      | f2 + 1, hf2 =>
        rw [featLoop_space f2 (sigByte sgn :: (tag ++ ((spByte :: (sigByte t.2 ::
            (t.1 ++ flatToks fs2))) ++ tailPart d))) 5 (acc ++ [(tag, sgn)])
          (by omega)
          (by rw [hR, show (5 : Nat) = (sigByte sgn :: tag).length + 0 from by
              rw [hJ], getD_app]
              rfl)
          (by rw [hR, show (5 : Nat) = (sigByte sgn :: tag).length + 0 from by
              rw [hJ], drop_app]
              simp only [List.drop_zero, List.length_cons]
              omega)]
        rw [hR, show (5 : Nat) = (sigByte sgn :: tag).length + 0 from by rw [hJ], drop_app]
        simp only [List.drop_zero]
        have hshift := featLoop_shift f2 [spByte]
          (sigByte t.2 :: (t.1 ++ (flatToks fs2 ++ tailPart d))) 0 (acc ++ [(tag, sgn)])
          (by omega) (by simp)
        simp only [List.length_cons, List.length_nil, Nat.zero_add, List.cons_append,
          List.nil_append, Nat.add_zero] at hshift
        rw [hshift]
        rw [ih t.1 t.2 (acc ++ [(tag, sgn)]) f2 htlen
          (fun x hx => hts x (List.mem_cons_of_mem _ hx)) (by omega)]
        simp

/-! ### Round-trip of marshalled packets through `DecodePacket` -/

lemma beqz {n : Nat} (h : n ≠ 0) : (n == 0) = false := by
  simpa using h

lemma DecodePacket_cons (k a b c : Nat) (rest raw : List Nat)
    (hlen : ¬ (k :: a :: b :: c :: rest).length < 5)
    (hnull : hasNull (k :: a :: b :: c :: rest) = false)
    (hk : knownKindB k = true) (hpr : parseRaw rest = .ok raw) :
    DecodePacket (k :: a :: b :: c :: rest) = unmarshalByKind k ⟨a, b, c⟩ raw := by
  have h2 : ¬ hasNull (k :: a :: b :: c :: rest) = true := by simp [hnull]
  simp only [DecodePacket]
  rw [if_neg hlen, if_neg h2, if_pos hk, hpr]

lemma roundtrip_info (n : MsgType) (d : List Nat)
    (hn : n.wfB = true) (hd : noNull d = true) :
    DecodePacket (MarshalPacket (.info n d)) = .ok (.info n d) := by
  obtain ⟨n1, n2, n3⟩ := n
  simp only [MsgType.wfB, Bool.and_eq_true, decide_eq_true_eq] at hn
  obtain ⟨⟨h1, h2⟩, h3⟩ := hn
  have hd0 : hasNull d = false := by simpa [noNull] using hd
  by_cases hde : d = []
  · subst hde
    have hm : MarshalPacket (.info ⟨n1, n2, n3⟩ []) =
        kindInfo :: n1 :: n2 :: n3 :: [lineDelim] := by
      simp [MarshalPacket, tailPart]
    rw [hm, DecodePacket_cons _ _ _ _ _ [] (by simp)
      (by simp [hasNull, beqz h1, beqz h2, beqz h3, kindInfo, lineDelim])
      (by decide) (by simp [parseRaw, lineDelim, spByte])]
    simp [unmarshalByKind, InfoPacket.UnmarshalPacket, kindInfo, kindHub,
      kindEcho, kindDirect, kindBroadcast, kindFeature, kindClient, kindUDP,
      spByte, lineDelim]
  · have hm : MarshalPacket (.info ⟨n1, n2, n3⟩ d) =
        kindInfo :: n1 :: n2 :: n3 :: spByte :: (d ++ [lineDelim]) := by
      simp [MarshalPacket, tailPart, hde]
    rw [hm, DecodePacket_cons _ _ _ _ _ (d ++ [lineDelim]) (by simp)
      (by simp [hasNull, beqz h1, beqz h2, beqz h3, hasNull_append, kindInfo,
        lineDelim, spByte]
          simpa [hasNull] using hd0)
      (by decide) (by simp [parseRaw])]
    have hub : unmarshalByKind kindInfo ⟨n1, n2, n3⟩ (d ++ [lineDelim]) =
        InfoPacket.UnmarshalPacket ⟨n1, n2, n3⟩ (d ++ [lineDelim]) := by
      simp [unmarshalByKind, kindInfo]
    rw [hub]
    simp [InfoPacket.UnmarshalPacket, lastByteD, lastD_concat, List.dropLast_concat,
      lineDelim]

lemma roundtrip_hub (n : MsgType) (d : List Nat)
    (hn : n.wfB = true) (hd : noNull d = true) (hne : d ≠ []) :
    DecodePacket (MarshalPacket (.hub n d)) = .ok (.hub n d) := by
  obtain ⟨n1, n2, n3⟩ := n
  simp only [MsgType.wfB, Bool.and_eq_true, decide_eq_true_eq] at hn
  obtain ⟨⟨h1, h2⟩, h3⟩ := hn
  have hd0 : hasNull d = false := by simpa [noNull] using hd
  have hm : MarshalPacket (.hub ⟨n1, n2, n3⟩ d) =
      kindHub :: n1 :: n2 :: n3 :: spByte :: (d ++ [lineDelim]) := by
    simp [MarshalPacket, tailPart, hne]
  rw [hm, DecodePacket_cons _ _ _ _ _ (d ++ [lineDelim]) (by simp)
    (by simp [hasNull, beqz h1, beqz h2, beqz h3, hasNull_append, kindHub,
      lineDelim, spByte]
        simpa [hasNull] using hd0)
    (by decide) (by simp [parseRaw])]
  have hub : unmarshalByKind kindHub ⟨n1, n2, n3⟩ (d ++ [lineDelim]) =
      HubPacket.UnmarshalPacket ⟨n1, n2, n3⟩ (d ++ [lineDelim]) := by
    simp [unmarshalByKind, kindHub, kindInfo]
  rw [hub]
  have hlen : ¬ (d ++ [lineDelim]).length < 1 := by simp
  simp [HubPacket.UnmarshalPacket, hlen, lastByteD, lastD_concat, List.dropLast_concat,
    lineDelim]

lemma roundtrip_client (n : MsgType) (d : List Nat)
    (hn : n.wfB = true) (hd : noNull d = true) (hne : d ≠ []) :
    DecodePacket (MarshalPacket (.client n d)) = .ok (.client n d) := by
  obtain ⟨n1, n2, n3⟩ := n
  simp only [MsgType.wfB, Bool.and_eq_true, decide_eq_true_eq] at hn
  obtain ⟨⟨h1, h2⟩, h3⟩ := hn
  have hd0 : hasNull d = false := by simpa [noNull] using hd
  have hm : MarshalPacket (.client ⟨n1, n2, n3⟩ d) =
      kindClient :: n1 :: n2 :: n3 :: spByte :: (d ++ [lineDelim]) := by
    simp [MarshalPacket, tailPart, hne]
  rw [hm, DecodePacket_cons _ _ _ _ _ (d ++ [lineDelim]) (by simp)
    (by simp [hasNull, beqz h1, beqz h2, beqz h3, hasNull_append, kindClient,
      lineDelim, spByte]
        simpa [hasNull] using hd0)
    (by decide) (by simp [parseRaw])]
  have hub : unmarshalByKind kindClient ⟨n1, n2, n3⟩ (d ++ [lineDelim]) =
      ClientPacket.UnmarshalPacket ⟨n1, n2, n3⟩ (d ++ [lineDelim]) := by
    simp [unmarshalByKind, kindClient, kindInfo, kindHub, kindEcho, kindDirect,
      kindBroadcast, kindFeature]
  rw [hub]
  have hlen : ¬ (d ++ [lineDelim]).length < 1 := by simp
  simp [ClientPacket.UnmarshalPacket, hlen, lastByteD, lastD_concat, List.dropLast_concat,
    lineDelim]

lemma roundtrip_broadcast (n : MsgType) (sid : SID) (d : List Nat)
    (hn : n.wfB = true) (hs : sid.validB = true) (hd : noNull d = true) :
    DecodePacket (MarshalPacket (.broadcast n sid d)) = .ok (.broadcast n sid d) := by
  obtain ⟨n1, n2, n3⟩ := n
  obtain ⟨s1, s2, s3, s4⟩ := sid
  simp only [MsgType.wfB, Bool.and_eq_true, decide_eq_true_eq] at hn
  obtain ⟨⟨h1, h2⟩, h3⟩ := hn
  have hsv := hs
  simp only [SID.validB, Bool.and_eq_true] at hsv
  obtain ⟨⟨⟨hb1, hb2⟩, hb3⟩, hb4⟩ := hsv
  have z1 := isBase32_pos hb1
  have z2 := isBase32_pos hb2
  have z3 := isBase32_pos hb3
  have z4 := isBase32_pos hb4
  have hd0 : hasNull d = false := by simpa [noNull] using hd
  by_cases hde : d = []
  · subst hde
    have hm : MarshalPacket (.broadcast ⟨n1, n2, n3⟩ ⟨s1, s2, s3, s4⟩ []) =
        kindBroadcast :: n1 :: n2 :: n3 :: spByte ::
          s1 :: s2 :: s3 :: s4 :: [lineDelim] := by
      simp [MarshalPacket, tailPart]
    rw [hm, DecodePacket_cons _ _ _ _ _ (s1 :: s2 :: s3 :: s4 :: [lineDelim]) (by simp)
      (by simp [hasNull, beqz h1, beqz h2, beqz h3, beqz z1, beqz z2, beqz z3, beqz z4,
        kindBroadcast, lineDelim, spByte])
      (by decide) (by simp [parseRaw])]
    have hub : unmarshalByKind kindBroadcast ⟨n1, n2, n3⟩
        (s1 :: s2 :: s3 :: s4 :: [lineDelim]) =
        BroadcastPacket.UnmarshalPacket ⟨n1, n2, n3⟩ (s1 :: s2 :: s3 :: s4 :: [lineDelim]) := by
      simp [unmarshalByKind, kindBroadcast, kindInfo, kindHub, kindEcho, kindDirect]
    rw [hub]
    have hx : s1 :: s2 :: s3 :: s4 :: [lineDelim] =
        (s1 :: s2 :: s3 :: [s4]) ++ [lineDelim] := by simp
    simp [BroadcastPacket.UnmarshalPacket, lastByteD, hx, lastD_concat,
      List.dropLast_concat, getD_cons_s, getD_cons_z, lineDelim, spByte,
      SID.UnmarshalAdc, hb1, hb2, hb3, hb4]
  · have hm : MarshalPacket (.broadcast ⟨n1, n2, n3⟩ ⟨s1, s2, s3, s4⟩ d) =
        kindBroadcast :: n1 :: n2 :: n3 :: spByte ::
          s1 :: s2 :: s3 :: s4 :: spByte :: (d ++ [lineDelim]) := by
      simp [MarshalPacket, tailPart, hde]
    rw [hm, DecodePacket_cons _ _ _ _ _ (s1 :: s2 :: s3 :: s4 :: spByte :: (d ++ [lineDelim]))
      (by simp)
      (by simp [hasNull, beqz h1, beqz h2, beqz h3, beqz z1, beqz z2, beqz z3, beqz z4,
        hasNull_append, kindBroadcast, lineDelim, spByte]
          simpa [hasNull] using hd0)
      (by decide) (by simp [parseRaw])]
    have hub : unmarshalByKind kindBroadcast ⟨n1, n2, n3⟩
        (s1 :: s2 :: s3 :: s4 :: spByte :: (d ++ [lineDelim])) =
        BroadcastPacket.UnmarshalPacket ⟨n1, n2, n3⟩
          (s1 :: s2 :: s3 :: s4 :: spByte :: (d ++ [lineDelim])) := by
      simp [unmarshalByKind, kindBroadcast, kindInfo, kindHub, kindEcho, kindDirect]
    rw [hub]
    have hx : s1 :: s2 :: s3 :: s4 :: spByte :: (d ++ [lineDelim]) =
        (s1 :: s2 :: s3 :: s4 :: spByte :: d) ++ [lineDelim] := by simp
    have hdl : 0 < d.length := List.length_pos.mpr hde
    have c1 : ¬ (s1 :: s2 :: s3 :: s4 :: spByte :: (d ++ [lineDelim])).length < 4 := by
      simp
    have c4 : (s1 :: s2 :: s3 :: s4 :: spByte :: d).length > 5 := by
      simp
      omega
    simp only [BroadcastPacket.UnmarshalPacket]
    rw [if_neg c1]
    have cB : lastByteD (s1 :: s2 :: s3 :: s4 :: spByte :: (d ++ [lineDelim])) = lineDelim := by
      rw [lastByteD, hx, lastD_concat]
    rw [if_neg (by rw [cB]; simp)]
    rw [if_neg (by rw [show (s1 :: s2 :: s3 :: s4 :: spByte :: (d ++ [lineDelim])).getD 4 0 =
      spByte from rfl]; simp)]
    have cE : (s1 :: s2 :: s3 :: s4 :: spByte :: (d ++ [lineDelim])).dropLast =
        s1 :: s2 :: s3 :: s4 :: spByte :: d := by
      rw [hx, List.dropLast_concat]
    simp only [cE]
    have hSID : SID.UnmarshalAdc ((s1 :: s2 :: s3 :: s4 :: spByte :: d).take 4) =
        .ok ⟨s1, s2, s3, s4⟩ := by
      simp [SID.UnmarshalAdc, hb1, hb2, hb3, hb4]
    rw [hSID]
    simp [c4]

lemma roundtrip_direct (n : MsgType) (sid targ : SID) (d : List Nat)
    (hn : n.wfB = true) (hs : sid.validB = true) (ht : targ.validB = true)
    (hd : noNull d = true) :
    DecodePacket (MarshalPacket (.direct n sid targ d)) = .ok (.direct n sid targ d) := by
  obtain ⟨n1, n2, n3⟩ := n
  obtain ⟨s1, s2, s3, s4⟩ := sid
  obtain ⟨t1, t2, t3, t4⟩ := targ
  simp only [MsgType.wfB, Bool.and_eq_true, decide_eq_true_eq] at hn
  obtain ⟨⟨h1, h2⟩, h3⟩ := hn
  simp only [SID.validB, Bool.and_eq_true] at hs ht
  obtain ⟨⟨⟨hb1, hb2⟩, hb3⟩, hb4⟩ := hs
  obtain ⟨⟨⟨hc1, hc2⟩, hc3⟩, hc4⟩ := ht
  have z1 := isBase32_pos hb1
  have z2 := isBase32_pos hb2
  have z3 := isBase32_pos hb3
  have z4 := isBase32_pos hb4
  have y1 := isBase32_pos hc1
  have y2 := isBase32_pos hc2
  have y3 := isBase32_pos hc3
  have y4 := isBase32_pos hc4
  have hd0 : hasNull d = false := by simpa [noNull] using hd
  by_cases hde : d = []
  · subst hde
    have hm : MarshalPacket (.direct ⟨n1, n2, n3⟩ ⟨s1, s2, s3, s4⟩ ⟨t1, t2, t3, t4⟩ []) =
        kindDirect :: n1 :: n2 :: n3 :: spByte :: (s1 :: s2 :: s3 :: s4 :: spByte :: t1 :: t2 :: t3 :: t4 :: [lineDelim]) := by
      simp [MarshalPacket, tailPart]
    rw [hm, DecodePacket_cons _ _ _ _ _ (s1 :: s2 :: s3 :: s4 :: spByte :: t1 :: t2 :: t3 :: t4 :: [lineDelim]) (by simp)
      (by simp [hasNull, beqz h1, beqz h2, beqz h3, beqz z1, beqz z2, beqz z3, beqz z4,
        beqz y1, beqz y2, beqz y3, beqz y4, kindDirect, lineDelim, spByte])
      (by decide) (by simp [parseRaw])]
    have hub : unmarshalByKind kindDirect ⟨n1, n2, n3⟩ (s1 :: s2 :: s3 :: s4 :: spByte :: t1 :: t2 :: t3 :: t4 :: [lineDelim]) =
        DirectPacket.UnmarshalPacket ⟨n1, n2, n3⟩ (s1 :: s2 :: s3 :: s4 :: spByte :: t1 :: t2 :: t3 :: t4 :: [lineDelim]) := by
      simp [unmarshalByKind, kindDirect, kindInfo, kindHub, kindEcho, kindDirect]
    rw [hub]
    have hx : s1 :: s2 :: s3 :: s4 :: spByte :: t1 :: t2 :: t3 :: t4 :: [lineDelim] = (s1 :: s2 :: s3 :: s4 :: spByte :: t1 :: t2 :: t3 :: [t4]) ++ [lineDelim] := by simp
    simp only [DirectPacket.UnmarshalPacket]
    rw [if_neg (by simp)]
    have cB : lastByteD (s1 :: s2 :: s3 :: s4 :: spByte :: t1 :: t2 :: t3 :: t4 :: [lineDelim]) = lineDelim := by
      rw [lastByteD, hx, lastD_concat]
    rw [if_neg (by rw [cB]; simp)]
    rw [if_neg (by rw [show (s1 :: s2 :: s3 :: s4 :: spByte :: t1 :: t2 :: t3 :: t4 :: [lineDelim]).getD 4 0 = spByte from rfl]; simp)]
    rw [if_neg (by rw [show (s1 :: s2 :: s3 :: s4 :: spByte :: t1 :: t2 :: t3 :: t4 :: [lineDelim]).getD 9 0 = lineDelim from rfl]; simp)]
    have cE : (s1 :: s2 :: s3 :: s4 :: spByte :: t1 :: t2 :: t3 :: t4 :: [lineDelim]).dropLast = s1 :: s2 :: s3 :: s4 :: spByte :: t1 :: t2 :: t3 :: [t4] := by
      rw [hx, List.dropLast_concat]
    simp only [cE]
    have hS1 : SID.UnmarshalAdc [s1, s2, s3, s4] = .ok ⟨s1, s2, s3, s4⟩ := by
      simp [SID.UnmarshalAdc, hb1, hb2, hb3, hb4]
    have hS2 : SID.UnmarshalAdc [t1, t2, t3, t4] = .ok ⟨t1, t2, t3, t4⟩ := by
      simp [SID.UnmarshalAdc, hc1, hc2, hc3, hc4]
    simp [hS1, hS2]
  · have hm : MarshalPacket (.direct ⟨n1, n2, n3⟩ ⟨s1, s2, s3, s4⟩ ⟨t1, t2, t3, t4⟩ d) =
        kindDirect :: n1 :: n2 :: n3 :: spByte :: (s1 :: s2 :: s3 :: s4 :: spByte :: t1 :: t2 :: t3 :: t4 :: spByte :: (d ++ [lineDelim])) := by
      simp [MarshalPacket, tailPart, hde]
    rw [hm, DecodePacket_cons _ _ _ _ _ (s1 :: s2 :: s3 :: s4 :: spByte :: t1 :: t2 :: t3 :: t4 :: spByte :: (d ++ [lineDelim])) (by simp)
      (by simp [hasNull, beqz h1, beqz h2, beqz h3, beqz z1, beqz z2, beqz z3, beqz z4,
        beqz y1, beqz y2, beqz y3, beqz y4, hasNull_append, kindDirect, lineDelim, spByte]
          simpa [hasNull] using hd0)
      (by decide) (by simp [parseRaw])]
    have hub : unmarshalByKind kindDirect ⟨n1, n2, n3⟩ (s1 :: s2 :: s3 :: s4 :: spByte :: t1 :: t2 :: t3 :: t4 :: spByte :: (d ++ [lineDelim])) =
        DirectPacket.UnmarshalPacket ⟨n1, n2, n3⟩ (s1 :: s2 :: s3 :: s4 :: spByte :: t1 :: t2 :: t3 :: t4 :: spByte :: (d ++ [lineDelim])) := by
      simp [unmarshalByKind, kindDirect, kindInfo, kindHub, kindEcho, kindDirect]
    rw [hub]
    have hx : s1 :: s2 :: s3 :: s4 :: spByte :: t1 :: t2 :: t3 :: t4 :: spByte :: (d ++ [lineDelim]) = (s1 :: s2 :: s3 :: s4 :: spByte :: t1 :: t2 :: t3 :: t4 :: spByte :: d) ++ [lineDelim] := by simp
    have hdl : 0 < d.length := List.length_pos.mpr hde
    simp only [DirectPacket.UnmarshalPacket]
    rw [if_neg (by simp)]
    have cB : lastByteD (s1 :: s2 :: s3 :: s4 :: spByte :: t1 :: t2 :: t3 :: t4 :: spByte :: (d ++ [lineDelim])) = lineDelim := by
      rw [lastByteD, hx, lastD_concat]
    rw [if_neg (by rw [cB]; simp)]
    rw [if_neg (by rw [show (s1 :: s2 :: s3 :: s4 :: spByte :: t1 :: t2 :: t3 :: t4 :: spByte :: (d ++ [lineDelim])).getD 4 0 = spByte from rfl]; simp)]
    rw [if_neg (by rw [show (s1 :: s2 :: s3 :: s4 :: spByte :: t1 :: t2 :: t3 :: t4 :: spByte :: (d ++ [lineDelim])).getD 9 0 = spByte from rfl]; simp)]
    have cE : (s1 :: s2 :: s3 :: s4 :: spByte :: t1 :: t2 :: t3 :: t4 :: spByte :: (d ++ [lineDelim])).dropLast = s1 :: s2 :: s3 :: s4 :: spByte :: t1 :: t2 :: t3 :: t4 :: spByte :: d := by
      rw [hx, List.dropLast_concat]
    simp only [cE]
    have hS1 : SID.UnmarshalAdc [s1, s2, s3, s4] = .ok ⟨s1, s2, s3, s4⟩ := by
      simp [SID.UnmarshalAdc, hb1, hb2, hb3, hb4]
    have hS2 : SID.UnmarshalAdc [t1, t2, t3, t4] = .ok ⟨t1, t2, t3, t4⟩ := by
      simp [SID.UnmarshalAdc, hc1, hc2, hc3, hc4]
    simp [hS1, hS2, hdl]

lemma roundtrip_echo (n : MsgType) (sid targ : SID) (d : List Nat)
    (hn : n.wfB = true) (hs : sid.validB = true) (ht : targ.validB = true)
    (hd : noNull d = true) :
    DecodePacket (MarshalPacket (.echo n sid targ d)) = .ok (.echo n sid targ d) := by
  obtain ⟨n1, n2, n3⟩ := n
  obtain ⟨s1, s2, s3, s4⟩ := sid
  obtain ⟨t1, t2, t3, t4⟩ := targ
  simp only [MsgType.wfB, Bool.and_eq_true, decide_eq_true_eq] at hn
  obtain ⟨⟨h1, h2⟩, h3⟩ := hn
  simp only [SID.validB, Bool.and_eq_true] at hs ht
  obtain ⟨⟨⟨hb1, hb2⟩, hb3⟩, hb4⟩ := hs
  obtain ⟨⟨⟨hc1, hc2⟩, hc3⟩, hc4⟩ := ht
  have z1 := isBase32_pos hb1
  have z2 := isBase32_pos hb2
  have z3 := isBase32_pos hb3
  have z4 := isBase32_pos hb4
  have y1 := isBase32_pos hc1
  have y2 := isBase32_pos hc2
  have y3 := isBase32_pos hc3
  have y4 := isBase32_pos hc4
  have hd0 : hasNull d = false := by simpa [noNull] using hd
  by_cases hde : d = []
  · subst hde
    have hm : MarshalPacket (.echo ⟨n1, n2, n3⟩ ⟨s1, s2, s3, s4⟩ ⟨t1, t2, t3, t4⟩ []) =
        kindEcho :: n1 :: n2 :: n3 :: spByte :: (s1 :: s2 :: s3 :: s4 :: spByte :: t1 :: t2 :: t3 :: t4 :: [lineDelim]) := by
      simp [MarshalPacket, tailPart]
    rw [hm, DecodePacket_cons _ _ _ _ _ (s1 :: s2 :: s3 :: s4 :: spByte :: t1 :: t2 :: t3 :: t4 :: [lineDelim]) (by simp)
      (by simp [hasNull, beqz h1, beqz h2, beqz h3, beqz z1, beqz z2, beqz z3, beqz z4,
        beqz y1, beqz y2, beqz y3, beqz y4, kindEcho, lineDelim, spByte])
      (by decide) (by simp [parseRaw])]
    have hub : unmarshalByKind kindEcho ⟨n1, n2, n3⟩ (s1 :: s2 :: s3 :: s4 :: spByte :: t1 :: t2 :: t3 :: t4 :: [lineDelim]) =
        EchoPacket.UnmarshalPacket ⟨n1, n2, n3⟩ (s1 :: s2 :: s3 :: s4 :: spByte :: t1 :: t2 :: t3 :: t4 :: [lineDelim]) := by
      simp [unmarshalByKind, kindEcho, kindInfo, kindHub, kindEcho, kindDirect]
    rw [hub]
    have hx : s1 :: s2 :: s3 :: s4 :: spByte :: t1 :: t2 :: t3 :: t4 :: [lineDelim] = (s1 :: s2 :: s3 :: s4 :: spByte :: t1 :: t2 :: t3 :: [t4]) ++ [lineDelim] := by simp
    simp only [EchoPacket.UnmarshalPacket]
    rw [if_neg (by simp)]
    have cB : lastByteD (s1 :: s2 :: s3 :: s4 :: spByte :: t1 :: t2 :: t3 :: t4 :: [lineDelim]) = lineDelim := by
      rw [lastByteD, hx, lastD_concat]
    rw [if_neg (by rw [cB]; simp)]
    rw [if_neg (by rw [show (s1 :: s2 :: s3 :: s4 :: spByte :: t1 :: t2 :: t3 :: t4 :: [lineDelim]).getD 4 0 = spByte from rfl]; simp)]
    rw [if_neg (by rw [show (s1 :: s2 :: s3 :: s4 :: spByte :: t1 :: t2 :: t3 :: t4 :: [lineDelim]).getD 9 0 = lineDelim from rfl]; simp)]
    have cE : (s1 :: s2 :: s3 :: s4 :: spByte :: t1 :: t2 :: t3 :: t4 :: [lineDelim]).dropLast = s1 :: s2 :: s3 :: s4 :: spByte :: t1 :: t2 :: t3 :: [t4] := by
      rw [hx, List.dropLast_concat]
    simp only [cE]
    have hS1 : SID.UnmarshalAdc [s1, s2, s3, s4] = .ok ⟨s1, s2, s3, s4⟩ := by
      simp [SID.UnmarshalAdc, hb1, hb2, hb3, hb4]
    have hS2 : SID.UnmarshalAdc [t1, t2, t3, t4] = .ok ⟨t1, t2, t3, t4⟩ := by
      simp [SID.UnmarshalAdc, hc1, hc2, hc3, hc4]
    simp [hS1, hS2]
  · have hm : MarshalPacket (.echo ⟨n1, n2, n3⟩ ⟨s1, s2, s3, s4⟩ ⟨t1, t2, t3, t4⟩ d) =
        kindEcho :: n1 :: n2 :: n3 :: spByte :: (s1 :: s2 :: s3 :: s4 :: spByte :: t1 :: t2 :: t3 :: t4 :: spByte :: (d ++ [lineDelim])) := by
      simp [MarshalPacket, tailPart, hde]
    rw [hm, DecodePacket_cons _ _ _ _ _ (s1 :: s2 :: s3 :: s4 :: spByte :: t1 :: t2 :: t3 :: t4 :: spByte :: (d ++ [lineDelim])) (by simp)
      (by simp [hasNull, beqz h1, beqz h2, beqz h3, beqz z1, beqz z2, beqz z3, beqz z4,
        beqz y1, beqz y2, beqz y3, beqz y4, hasNull_append, kindEcho, lineDelim, spByte]
          simpa [hasNull] using hd0)
      (by decide) (by simp [parseRaw])]
    have hub : unmarshalByKind kindEcho ⟨n1, n2, n3⟩ (s1 :: s2 :: s3 :: s4 :: spByte :: t1 :: t2 :: t3 :: t4 :: spByte :: (d ++ [lineDelim])) =
        EchoPacket.UnmarshalPacket ⟨n1, n2, n3⟩ (s1 :: s2 :: s3 :: s4 :: spByte :: t1 :: t2 :: t3 :: t4 :: spByte :: (d ++ [lineDelim])) := by
      simp [unmarshalByKind, kindEcho, kindInfo, kindHub, kindEcho, kindDirect]
    rw [hub]
    have hx : s1 :: s2 :: s3 :: s4 :: spByte :: t1 :: t2 :: t3 :: t4 :: spByte :: (d ++ [lineDelim]) = (s1 :: s2 :: s3 :: s4 :: spByte :: t1 :: t2 :: t3 :: t4 :: spByte :: d) ++ [lineDelim] := by simp
    have hdl : 0 < d.length := List.length_pos.mpr hde
    simp only [EchoPacket.UnmarshalPacket]
    rw [if_neg (by simp)]
    have cB : lastByteD (s1 :: s2 :: s3 :: s4 :: spByte :: t1 :: t2 :: t3 :: t4 :: spByte :: (d ++ [lineDelim])) = lineDelim := by
      rw [lastByteD, hx, lastD_concat]
    rw [if_neg (by rw [cB]; simp)]
    rw [if_neg (by rw [show (s1 :: s2 :: s3 :: s4 :: spByte :: t1 :: t2 :: t3 :: t4 :: spByte :: (d ++ [lineDelim])).getD 4 0 = spByte from rfl]; simp)]
    rw [if_neg (by rw [show (s1 :: s2 :: s3 :: s4 :: spByte :: t1 :: t2 :: t3 :: t4 :: spByte :: (d ++ [lineDelim])).getD 9 0 = spByte from rfl]; simp)]
    have cE : (s1 :: s2 :: s3 :: s4 :: spByte :: t1 :: t2 :: t3 :: t4 :: spByte :: (d ++ [lineDelim])).dropLast = s1 :: s2 :: s3 :: s4 :: spByte :: t1 :: t2 :: t3 :: t4 :: spByte :: d := by
      rw [hx, List.dropLast_concat]
    simp only [cE]
    have hS1 : SID.UnmarshalAdc [s1, s2, s3, s4] = .ok ⟨s1, s2, s3, s4⟩ := by
      simp [SID.UnmarshalAdc, hb1, hb2, hb3, hb4]
    have hS2 : SID.UnmarshalAdc [t1, t2, t3, t4] = .ok ⟨t1, t2, t3, t4⟩ := by
      simp [SID.UnmarshalAdc, hc1, hc2, hc3, hc4]
    simp [hS1, hS2, hdl]

lemma hasNull_of_base32 (l : List Nat) (h : l.all isBase32Byte = true) :
    hasNull l = false := by
  rw [hasNull, List.any_eq_false]
  intro x hx
  simpa using isBase32_pos (List.all_eq_true.mp h x hx)

lemma roundtrip_udp (n : MsgType) (cid : CID) (d : List Nat)
    (hn : n.wfB = true) (hc : cid.validB = true) (hd : noNull d = true) :
    DecodePacket (MarshalPacket (.udp n cid d)) = .ok (.udp n cid d) := by
  obtain ⟨n1, n2, n3⟩ := n
  simp only [MsgType.wfB, Bool.and_eq_true, decide_eq_true_eq] at hn
  obtain ⟨⟨h1, h2⟩, h3⟩ := hn
  have hcv := hc
  simp only [CID.validB, Bool.and_eq_true, beq_iff_eq] at hcv
  obtain ⟨hclen, hcall⟩ := hcv
  obtain ⟨chars⟩ := cid
  simp only at hclen hcall
  have hd0 : hasNull d = false := by simpa [noNull] using hd
  have hcn : hasNull chars = false := hasNull_of_base32 chars hcall
  have hfrom : CID.FromBase32 chars = .ok ⟨chars⟩ := by
    simp [CID.FromBase32, hclen, hcall]
  by_cases hde : d = []
  · subst hde
    have hm : MarshalPacket (.udp ⟨n1, n2, n3⟩ ⟨chars⟩ []) =
        kindUDP :: n1 :: n2 :: n3 :: spByte :: (chars ++ [lineDelim]) := by
      simp [MarshalPacket, tailPart, CID.ToBase32]
    rw [hm, DecodePacket_cons _ _ _ _ _ (chars ++ [lineDelim])
      (by simp)
      (by simp [hasNull, beqz h1, beqz h2, beqz h3, hasNull_append, kindUDP,
        lineDelim, spByte]
          simpa [hasNull] using hcn)
      (by decide) (by simp [parseRaw])]
    have hub : unmarshalByKind kindUDP ⟨n1, n2, n3⟩ (chars ++ [lineDelim]) =
        UDPPacket.UnmarshalPacket ⟨n1, n2, n3⟩ (chars ++ [lineDelim]) := by
      simp [unmarshalByKind, kindUDP, kindInfo, kindHub, kindEcho, kindDirect,
        kindBroadcast, kindFeature, kindClient]
    rw [hub]
    simp only [UDPPacket.UnmarshalPacket]
    rw [if_neg (by simp [hclen])]
    rw [if_neg (by rw [show lastByteD (chars ++ [lineDelim]) = lineDelim from
      lastD_concat _ _ _]; simp)]
    rw [if_neg (by
      rw [show (chars ++ [lineDelim]).getD 39 0 = lineDelim from by
        rw [show (39 : Nat) = chars.length + 0 from by rw [hclen], getD_app]
        rfl]
      simp)]
    rw [show (chars ++ [lineDelim]).dropLast = chars from List.dropLast_concat]
    rw [show chars.take 39 = chars from by rw [← hclen, List.take_length]]
    rw [hfrom]
    simp [hclen]
  · have hm : MarshalPacket (.udp ⟨n1, n2, n3⟩ ⟨chars⟩ d) =
        kindUDP :: n1 :: n2 :: n3 :: spByte :: (chars ++ (spByte :: d ++ [lineDelim])) := by
      simp [MarshalPacket, tailPart, CID.ToBase32, hde]
    have hdl : 0 < d.length := List.length_pos.mpr hde
    rw [hm, DecodePacket_cons _ _ _ _ _ (chars ++ (spByte :: d ++ [lineDelim]))
      (by simp)
      (by simp [hasNull, beqz h1, beqz h2, beqz h3, hasNull_append, kindUDP,
        lineDelim, spByte]
          constructor
          · simpa [hasNull] using hcn
          · simpa [hasNull] using hd0)
      (by decide) (by simp [parseRaw])]
    have hub : unmarshalByKind kindUDP ⟨n1, n2, n3⟩ (chars ++ (spByte :: d ++ [lineDelim])) =
        UDPPacket.UnmarshalPacket ⟨n1, n2, n3⟩ (chars ++ (spByte :: d ++ [lineDelim])) := by
      simp [unmarshalByKind, kindUDP, kindInfo, kindHub, kindEcho, kindDirect,
        kindBroadcast, kindFeature, kindClient]
    rw [hub]
    have hx : chars ++ (spByte :: d ++ [lineDelim]) =
        (chars ++ (spByte :: d)) ++ [lineDelim] := by simp
    simp only [UDPPacket.UnmarshalPacket]
    rw [if_neg (by simp [hclen])]
    rw [if_neg (by rw [show lastByteD (chars ++ (spByte :: d ++ [lineDelim])) = lineDelim from
      by rw [lastByteD, hx, lastD_concat]]; simp)]
    rw [if_neg (by
      rw [show (chars ++ (spByte :: d ++ [lineDelim])).getD 39 0 = spByte from by
        rw [show (39 : Nat) = chars.length + 0 from by rw [hclen], getD_app]
        rfl]
      simp)]
    rw [show (chars ++ (spByte :: d ++ [lineDelim])).dropLast = chars ++ (spByte :: d) from by
      rw [hx, List.dropLast_concat]]
    rw [show (chars ++ (spByte :: d)).take 39 = chars from by
      rw [← hclen, List.take_left]]
    rw [hfrom]
    have c40 : (chars ++ (spByte :: d)).length > 40 := by
      simp [hclen]
      omega
    rw [show (chars ++ (spByte :: d)).drop 40 = d from by
      rw [show (40 : Nat) = chars.length + 1 from by rw [hclen], drop_app]
      rfl]
    simp [c40]
    intro h
    exact absurd h (by simp [hclen]; omega)

lemma hasNull_flatToks (fs : List (List Nat × Bool)) (h : fs.all tagWfB = true) :
    hasNull (flatToks fs) = false := by
  induction fs with
  | nil => rfl
  | cons t fs2 ih =>
    simp only [List.all_cons, Bool.and_eq_true] at h
    have ht := h.1
    simp only [tagWfB, Bool.and_eq_true, beq_iff_eq] at ht
    have hnn : hasNull t.1 = false := by simpa [noNull] using ht.2
    have hsig : (sigByte t.2 == 0) = false := by
      cases t.2 <;> simp [sigByte, plusByte, minusByte]
    rw [show flatToks (t :: fs2) = spByte :: sigByte t.2 :: (t.1 ++ flatToks fs2) from by
      simp [flatToks]]
    rw [hasNull_cons, hasNull_cons, hasNull_append, hnn, ih h.2, hsig]
    simp [spByte]

lemma roundtrip_feature (n : MsgType) (sid : SID) (fs : List (List Nat × Bool))
    (d : List Nat) (hn : n.wfB = true) (hs : sid.validB = true)
    (hfs : fs.all tagWfB = true) (hd : noNull d = true)
    (hph : payloadHeadOk d = true) :
    DecodePacket (MarshalPacket (.feature n sid fs d)) = .ok (.feature n sid fs d) := by
  obtain ⟨n1, n2, n3⟩ := n
  obtain ⟨s1, s2, s3, s4⟩ := sid
  simp only [MsgType.wfB, Bool.and_eq_true, decide_eq_true_eq] at hn
  obtain ⟨⟨h1, h2⟩, h3⟩ := hn
  have hsv := hs
  simp only [SID.validB, Bool.and_eq_true] at hsv
  obtain ⟨⟨⟨hb1, hb2⟩, hb3⟩, hb4⟩ := hsv
  have z1 := isBase32_pos hb1
  have z2 := isBase32_pos hb2
  have z3 := isBase32_pos hb3
  have z4 := isBase32_pos hb4
  have hd0 : hasNull d = false := by simpa [noNull] using hd
  have hfn : hasNull (flatToks fs) = false := hasNull_flatToks fs hfs
  have hm : MarshalPacket (.feature ⟨n1, n2, n3⟩ ⟨s1, s2, s3, s4⟩ fs d) =
      kindFeature :: n1 :: n2 :: n3 :: spByte ::
        (s1 :: s2 :: s3 :: s4 :: (flatToks fs ++ tailPart d ++ [lineDelim])) := rfl
  have hS : SID.UnmarshalAdc [s1, s2, s3, s4] = .ok ⟨s1, s2, s3, s4⟩ := by
    simp [SID.UnmarshalAdc, hb1, hb2, hb3, hb4]
  have htp : hasNull (tailPart d) = false := by
    by_cases hde : d = []
    · subst hde
      rfl
    · rw [show tailPart d = spByte :: d from by simp [tailPart, hde], hasNull_cons, hd0]
      simp [spByte]
  rw [hm, DecodePacket_cons _ _ _ _ _
    (s1 :: s2 :: s3 :: s4 :: (flatToks fs ++ tailPart d ++ [lineDelim]))
    (by simp)
    (by rw [hasNull_cons, hasNull_cons, hasNull_cons, hasNull_cons, hasNull_cons,
        hasNull_cons, hasNull_cons, hasNull_cons, hasNull_cons, hasNull_append,
        hasNull_append, hfn, htp, beqz h1, beqz h2, beqz h3, beqz z1, beqz z2, beqz z3,
        beqz z4]
        simp [kindFeature, spByte, lineDelim, hasNull])
    (by decide) (by simp [parseRaw])]
  have hub : unmarshalByKind kindFeature ⟨n1, n2, n3⟩
      (s1 :: s2 :: s3 :: s4 :: (flatToks fs ++ tailPart d ++ [lineDelim])) =
      FeaturePacket.UnmarshalPacket ⟨n1, n2, n3⟩
        (s1 :: s2 :: s3 :: s4 :: (flatToks fs ++ tailPart d ++ [lineDelim])) := by
    simp [unmarshalByKind, kindFeature, kindInfo, kindHub, kindEcho, kindDirect,
      kindBroadcast]
  rw [hub]
  have hx : s1 :: s2 :: s3 :: s4 :: (flatToks fs ++ tailPart d ++ [lineDelim]) =
      (s1 :: s2 :: s3 :: s4 :: (flatToks fs ++ tailPart d)) ++ [lineDelim] := by simp
  simp only [FeaturePacket.UnmarshalPacket]
  rw [if_neg (by simp)]
  rw [if_neg (by rw [show lastByteD (s1 :: s2 :: s3 :: s4 ::
    (flatToks fs ++ tailPart d ++ [lineDelim])) = lineDelim from by
      rw [lastByteD, hx, lastD_concat]]; simp)]
  rw [if_neg (by
    rw [show (s1 :: s2 :: s3 :: s4 :: (flatToks fs ++ tailPart d ++ [lineDelim])).getD 4 0 =
        ((flatToks fs ++ tailPart d) ++ [lineDelim]).getD 0 0 from rfl]
    match fs with
    | [] =>
      by_cases hde : d = []
      · subst hde
        simp [flatToks, tailPart, lineDelim, getD_cons_z]
      · rw [show tailPart d = spByte :: d from by simp [tailPart, hde]]
        simp [flatToks, getD_cons_z, spByte]
    | t :: fs2 =>
      rw [show flatToks (t :: fs2) = spByte :: (sigByte t.2 :: (t.1 ++ flatToks fs2)) from by
        simp [flatToks]]
      simp [getD_cons_z, spByte])]
  rw [show (s1 :: s2 :: s3 :: s4 :: (flatToks fs ++ tailPart d ++ [lineDelim])).dropLast =
      s1 :: s2 :: s3 :: s4 :: (flatToks fs ++ tailPart d) from by
    rw [hx, List.dropLast_concat]]
  rw [show (s1 :: s2 :: s3 :: s4 :: (flatToks fs ++ tailPart d)).take 4 = [s1, s2, s3, s4]
    from rfl]
  rw [hS]
  match fs with
  | [] =>
    by_cases hde : d = []
    · subst hde
      rw [show flatToks [] ++ tailPart [] = ([] : List Nat) from rfl]
      simp [featLoop_nil]
    · rw [show flatToks [] ++ tailPart d = tailPart d from rfl,
        show tailPart d = spByte :: d from by simp [tailPart, hde]]
      have hdl : 0 < d.length := List.length_pos.mpr hde
      have hlen5 : (s1 :: s2 :: s3 :: s4 :: spByte :: d).length > 5 := by
        simp
        omega
      rw [if_pos hlen5]
      rw [show (s1 :: s2 :: s3 :: s4 :: spByte :: d).drop 5 = d from rfl]
      simp only [payloadHeadOk, Bool.or_eq_true, Bool.and_eq_true, decide_eq_true_eq] at hph
      rcases hph with hph | hph
      · exact absurd hph hde
      have hstop : featLoop (d.length + 1) d 0 [] = .ok ([], d) := by
        rw [featLoop_stop d.length d 0 [] hdl hph.1.1 hph.1.2 hph.2]
        simp
      rw [hstop]
  | t :: fs2 =>
    simp only [List.all_cons, Bool.and_eq_true] at hfs
    have ht := hfs.1
    simp only [tagWfB, Bool.and_eq_true, beq_iff_eq] at ht
    have hflat2 : flatToks (t :: fs2) ++ tailPart d =
        spByte :: (sigByte t.2 :: (t.1 ++ (flatToks fs2 ++ tailPart d))) := by
      simp [flatToks]
    rw [hflat2]
    have hlen5 : (s1 :: s2 :: s3 :: s4 ::
        spByte :: (sigByte t.2 :: (t.1 ++ (flatToks fs2 ++ tailPart d)))).length > 5 := by
      simp
    rw [if_pos hlen5]
    rw [show (s1 :: s2 :: s3 :: s4 ::
        spByte :: (sigByte t.2 :: (t.1 ++ (flatToks fs2 ++ tailPart d)))).drop 5 =
        sigByte t.2 :: (t.1 ++ (flatToks fs2 ++ tailPart d)) from rfl]
    rw [featLoop_render fs2 t.1 t.2 d [] _ ht.1 (by
        intro x hx2
        have := List.all_eq_true.mp hfs.2 x hx2
        simp only [tagWfB, Bool.and_eq_true, beq_iff_eq] at this
        exact this.1)
      hph (by omega)]
    simp

/-! ### Necessary conditions for a successful decode -/

lemma lastD_cons2 (a x : Nat) (xs : List Nat) :
    lastByteD (a :: x :: xs) = lastByteD (x :: xs) := by
  simp [lastByteD, List.getLastD]

lemma ubk_info (n : MsgType) (raw : List Nat) :
    unmarshalByKind kindInfo n raw = InfoPacket.UnmarshalPacket n raw := by
  simp [unmarshalByKind]

lemma ubk_hub (n : MsgType) (raw : List Nat) :
    unmarshalByKind kindHub n raw = HubPacket.UnmarshalPacket n raw := by
  simp [unmarshalByKind, kindHub, kindInfo]

lemma ubk_echo (n : MsgType) (raw : List Nat) :
    unmarshalByKind kindEcho n raw = EchoPacket.UnmarshalPacket n raw := by
  simp [unmarshalByKind, kindEcho, kindInfo, kindHub]

lemma ubk_direct (n : MsgType) (raw : List Nat) :
    unmarshalByKind kindDirect n raw = DirectPacket.UnmarshalPacket n raw := by
  simp [unmarshalByKind, kindDirect, kindInfo, kindHub, kindEcho]

lemma ubk_broadcast (n : MsgType) (raw : List Nat) :
    unmarshalByKind kindBroadcast n raw = BroadcastPacket.UnmarshalPacket n raw := by
  simp [unmarshalByKind, kindBroadcast, kindInfo, kindHub, kindEcho, kindDirect]

lemma ubk_feature (n : MsgType) (raw : List Nat) :
    unmarshalByKind kindFeature n raw = FeaturePacket.UnmarshalPacket n raw := by
  simp [unmarshalByKind, kindFeature, kindInfo, kindHub, kindEcho, kindDirect,
    kindBroadcast]

lemma ubk_client (n : MsgType) (raw : List Nat) :
    unmarshalByKind kindClient n raw = ClientPacket.UnmarshalPacket n raw := by
  simp [unmarshalByKind, kindClient, kindInfo, kindHub, kindEcho, kindDirect,
    kindBroadcast, kindFeature]

lemma ubk_udp (n : MsgType) (raw : List Nat) :
    unmarshalByKind kindUDP n raw = UDPPacket.UnmarshalPacket n raw := by
  simp [unmarshalByKind, kindUDP, kindInfo, kindHub, kindEcho, kindDirect,
    kindBroadcast, kindFeature, kindClient]

lemma sid_ok_len (l : List Nat) (sid : SID) (h : SID.UnmarshalAdc l = .ok sid) :
    l.length = 4 := by
  by_cases hc : l.length = 4 ∧ l.all isBase32Byte = true
  · exact hc.1
  · simp only [SID.UnmarshalAdc, if_neg hc] at h
    simp at h

lemma cid_ok_len (l : List Nat) (c : CID) (h : CID.FromBase32 l = .ok c) :
    l.length = 39 := by
  by_cases hc : (l.length == 39 && l.all isBase32Byte) = true
  · simpa using (Bool.and_eq_true _ _ |>.mp hc).1
  · simp only [CID.FromBase32] at h
    rw [if_neg (by simpa using hc)] at h
    simp at h

lemma info_ok_shape (n : MsgType) (dat : List Nat) (q : Packet)
    (h : InfoPacket.UnmarshalPacket n dat = .ok q) :
    dat = [] ∨ lastByteD dat = lineDelim := by
  by_cases hc : dat.length ≠ 0 ∧ lastByteD dat ≠ lineDelim
  · simp [InfoPacket.UnmarshalPacket, hc] at h
  · rcases Decidable.not_and_iff_or_not.mp hc with h1 | h2
    · left
      exact List.length_eq_zero.mp (Decidable.not_not.mp h1)
    · right
      exact Decidable.not_not.mp h2

lemma hub_ok_shape (n : MsgType) (dat : List Nat) (q : Packet)
    (h : HubPacket.UnmarshalPacket n dat = .ok q) :
    1 ≤ dat.length ∧ lastByteD dat = lineDelim := by
  by_cases h1 : dat.length < 1
  · simp [HubPacket.UnmarshalPacket, h1] at h
  by_cases h2 : lastByteD dat ≠ lineDelim
  · simp [HubPacket.UnmarshalPacket, h1, h2] at h
  exact ⟨by omega, Decidable.not_not.mp h2⟩

lemma client_ok_shape (n : MsgType) (dat : List Nat) (q : Packet)
    (h : ClientPacket.UnmarshalPacket n dat = .ok q) :
    1 ≤ dat.length ∧ lastByteD dat = lineDelim := by
  by_cases h1 : dat.length < 1
  · simp [ClientPacket.UnmarshalPacket, h1] at h
  by_cases h2 : lastByteD dat ≠ lineDelim
  · simp [ClientPacket.UnmarshalPacket, h1, h2] at h
  exact ⟨by omega, Decidable.not_not.mp h2⟩

lemma bcast_ok_shape (n : MsgType) (dat : List Nat) (q : Packet)
    (h : BroadcastPacket.UnmarshalPacket n dat = .ok q) :
    5 ≤ dat.length ∧ lastByteD dat = lineDelim := by
  by_cases h1 : dat.length < 4
  · simp [BroadcastPacket.UnmarshalPacket, h1] at h
  by_cases h2 : lastByteD dat ≠ lineDelim
  · simp [BroadcastPacket.UnmarshalPacket, h1, h2] at h
  by_cases h3 : dat.length > 4 ∧ dat.getD 4 0 ≠ spByte ∧ dat.getD 4 0 ≠ lineDelim
  · simp only [BroadcastPacket.UnmarshalPacket, if_neg h1, if_neg h2, if_pos h3] at h
    simp at h
  simp only [BroadcastPacket.UnmarshalPacket, if_neg h1, if_neg h2, if_neg h3] at h
  refine ⟨?_, Decidable.not_not.mp h2⟩
  cases hs : SID.UnmarshalAdc (dat.dropLast.take 4) with
  | ok sid =>
    have hl4 := sid_ok_len _ _ hs
    have hmin : (dat.dropLast.take 4).length = min 4 dat.dropLast.length :=
      List.length_take _ _
    have hdl : dat.dropLast.length = dat.length - 1 := List.length_dropLast _
    omega
  | err e => rw [hs] at h; simp at h
  | crash => rw [hs] at h; simp at h

lemma feature_ok_shape (n : MsgType) (dat : List Nat) (q : Packet)
    (h : FeaturePacket.UnmarshalPacket n dat = .ok q) :
    5 ≤ dat.length ∧ lastByteD dat = lineDelim := by
  by_cases h1 : dat.length < 4
  · simp [FeaturePacket.UnmarshalPacket, h1] at h
  by_cases h2 : lastByteD dat ≠ lineDelim
  · simp [FeaturePacket.UnmarshalPacket, h1, h2] at h
  by_cases h3 : dat.length > 4 ∧ dat.getD 4 0 ≠ spByte ∧ dat.getD 4 0 ≠ lineDelim
  · simp only [FeaturePacket.UnmarshalPacket, if_neg h1, if_neg h2, if_pos h3] at h
    simp at h
  simp only [FeaturePacket.UnmarshalPacket, if_neg h1, if_neg h2, if_neg h3] at h
  refine ⟨?_, Decidable.not_not.mp h2⟩
  cases hs : SID.UnmarshalAdc (dat.dropLast.take 4) with
  | ok sid =>
    have hl4 := sid_ok_len _ _ hs
    have hmin : (dat.dropLast.take 4).length = min 4 dat.dropLast.length :=
      List.length_take _ _
    have hdl : dat.dropLast.length = dat.length - 1 := List.length_dropLast _
    omega
  | err e => rw [hs] at h; simp at h
  | crash => rw [hs] at h; simp at h

lemma direct_ok_shape (n : MsgType) (dat : List Nat) (q : Packet)
    (h : DirectPacket.UnmarshalPacket n dat = .ok q) :
    10 ≤ dat.length ∧ lastByteD dat = lineDelim := by
  by_cases h1 : dat.length < 9
  · simp [DirectPacket.UnmarshalPacket, h1] at h
  by_cases h2 : lastByteD dat ≠ lineDelim
  · simp [DirectPacket.UnmarshalPacket, h1, h2] at h
  by_cases h3 : dat.getD 4 0 ≠ spByte
  · simp only [DirectPacket.UnmarshalPacket, if_neg h1, if_neg h2, if_pos h3] at h
    simp at h
  by_cases h4 : dat.length > 9 ∧ dat.getD 9 0 ≠ spByte ∧ dat.getD 9 0 ≠ lineDelim
  · simp only [DirectPacket.UnmarshalPacket, if_neg h1, if_neg h2, if_neg h3, if_pos h4] at h
    simp at h
  simp only [DirectPacket.UnmarshalPacket, if_neg h1, if_neg h2, if_neg h3, if_neg h4] at h
  refine ⟨?_, Decidable.not_not.mp h2⟩
  cases hs : SID.UnmarshalAdc (dat.dropLast.take 4) with
  | ok sid =>
    rw [hs] at h
    cases ht : SID.UnmarshalAdc ((dat.dropLast.drop 5).take 4) with
    | ok targ =>
      have hl4 := sid_ok_len _ _ ht
      have hmin : ((dat.dropLast.drop 5).take 4).length =
          min 4 (dat.dropLast.drop 5).length := List.length_take _ _
      have hdr : (dat.dropLast.drop 5).length = dat.dropLast.length - 5 :=
        List.length_drop _ _
      have hdl : dat.dropLast.length = dat.length - 1 := List.length_dropLast _
      omega
    | err e => rw [ht] at h; simp at h
    | crash => rw [ht] at h; simp at h
  | err e => rw [hs] at h; simp at h
  | crash => rw [hs] at h; simp at h

lemma echo_ok_shape (n : MsgType) (dat : List Nat) (q : Packet)
    (h : EchoPacket.UnmarshalPacket n dat = .ok q) :
    10 ≤ dat.length ∧ lastByteD dat = lineDelim := by
  by_cases h1 : dat.length < 9
  · simp [EchoPacket.UnmarshalPacket, h1] at h
  by_cases h2 : lastByteD dat ≠ lineDelim
  · simp [EchoPacket.UnmarshalPacket, h1, h2] at h
  by_cases h3 : dat.getD 4 0 ≠ spByte
  · simp only [EchoPacket.UnmarshalPacket, if_neg h1, if_neg h2, if_pos h3] at h
    simp at h
  by_cases h4 : dat.length > 9 ∧ dat.getD 9 0 ≠ spByte ∧ dat.getD 9 0 ≠ lineDelim
  · simp only [EchoPacket.UnmarshalPacket, if_neg h1, if_neg h2, if_neg h3, if_pos h4] at h
    simp at h
  simp only [EchoPacket.UnmarshalPacket, if_neg h1, if_neg h2, if_neg h3, if_neg h4] at h
  refine ⟨?_, Decidable.not_not.mp h2⟩
  cases hs : SID.UnmarshalAdc (dat.dropLast.take 4) with
  | ok sid =>
    rw [hs] at h
    cases ht : SID.UnmarshalAdc ((dat.dropLast.drop 5).take 4) with
    | ok targ =>
      have hl4 := sid_ok_len _ _ ht
      have hmin : ((dat.dropLast.drop 5).take 4).length =
          min 4 (dat.dropLast.drop 5).length := List.length_take _ _
      have hdr : (dat.dropLast.drop 5).length = dat.dropLast.length - 5 :=
        List.length_drop _ _
      have hdl : dat.dropLast.length = dat.length - 1 := List.length_dropLast _
      omega
    | err e => rw [ht] at h; simp at h
    | crash => rw [ht] at h; simp at h
  | err e => rw [hs] at h; simp at h
  | crash => rw [hs] at h; simp at h

lemma udp_ok_shape (n : MsgType) (dat : List Nat) (q : Packet)
    (h : UDPPacket.UnmarshalPacket n dat = .ok q) :
    40 ≤ dat.length ∧ lastByteD dat = lineDelim := by
  by_cases h1 : dat.length < 39
  · simp [UDPPacket.UnmarshalPacket, h1] at h
  by_cases h2 : lastByteD dat ≠ lineDelim
  · simp [UDPPacket.UnmarshalPacket, h1, h2] at h
  by_cases h3 : dat.length > 39 ∧ dat.getD 39 0 ≠ spByte ∧ dat.getD 39 0 ≠ lineDelim
  · simp only [UDPPacket.UnmarshalPacket, if_neg h1, if_neg h2, if_pos h3] at h
    simp at h
  simp only [UDPPacket.UnmarshalPacket, if_neg h1, if_neg h2, if_neg h3] at h
  refine ⟨?_, Decidable.not_not.mp h2⟩
  cases hs : CID.FromBase32 (dat.dropLast.take 39) with
  | ok cid =>
    have hl39 := cid_ok_len _ _ hs
    have hmin : (dat.dropLast.take 39).length = min 39 dat.dropLast.length :=
      List.length_take _ _
    have hdl : dat.dropLast.length = dat.length - 1 := List.length_dropLast _
    omega
  | err e => rw [hs] at h; simp at h
  | crash => rw [hs] at h; simp at h

lemma lastByte_shift5 (k a b c c0 y : Nat) (ys : List Nat) :
    lastByteD (k :: a :: b :: c :: c0 :: y :: ys) = lastByteD (y :: ys) := by
  rw [lastD_cons2, lastD_cons2, lastD_cons2, lastD_cons2, lastD_cons2]

lemma DecodePacket_cons_unknown (k a b c : Nat) (rest : List Nat)
    (hlen : ¬ (k :: a :: b :: c :: rest).length < 5)
    (hnull : hasNull (k :: a :: b :: c :: rest) = false)
    (hk : ¬ knownKindB k = true) :
    DecodePacket (k :: a :: b :: c :: rest) = .err "unknown command kind" := by
  have h2 : ¬ hasNull (k :: a :: b :: c :: rest) = true := by simp [hnull]
  simp only [DecodePacket]
  rw [if_neg hlen, if_neg h2, if_neg hk]

lemma DecodePacket_cons_badsep (k a b c : Nat) (rest : List Nat) (e : String)
    (hlen : ¬ (k :: a :: b :: c :: rest).length < 5)
    (hnull : hasNull (k :: a :: b :: c :: rest) = false)
    (hk : knownKindB k = true) (hpr : parseRaw rest = .err e) :
    DecodePacket (k :: a :: b :: c :: rest) = .err e := by
  have h2 : ¬ hasNull (k :: a :: b :: c :: rest) = true := by simp [hnull]
  simp only [DecodePacket]
  rw [if_neg hlen, if_neg h2, if_pos hk, hpr]

/-! ### Sanity checks on concrete frames -/

example : DecodePacket (strBytes "BMSG ABCD hello\x0a") =
    .ok (.broadcast ⟨77, 83, 71⟩ ⟨65, 66, 67, 68⟩ (strBytes "hello")) := by decide

example : DecodePacket (strBytes "FSCH ABCD +TCP4 -NAT0 TR:xyz\x0a") =
    .ok (.feature ⟨83, 67, 72⟩ ⟨65, 66, 67, 68⟩
      [([84, 67, 80, 52], true), ([78, 65, 84, 48], false)] (strBytes "TR:xyz")) := by decide

example : DecodePacket (strBytes "FSCH AAAA +TC\x0a") = .crash := by decide

example : DecodePacket (MarshalPacket (.hub ⟨73, 78, 70⟩ [])) = .err "short hub command" := by
  decide

example : DecodePacket (strBytes "IINF ") = .ok (.info ⟨73, 78, 70⟩ []) := by decide

example : validateUserName "#x" = some "name should not start with #" := by decide

example : validateUserName " x" = some "name should not start or end with spaces" := by decide

example : validateUserName "alice" = none := by decide

/-! ### The claims -/

/-- C1 (amended): for every well-formed ADC packet of the eight kinds,
decoding the bytes of `MarshalPacket` yields the same packet (feature
sets compared as lists of insertions, hence as sets), except that Hub and
Client packets with an empty payload marshal to a 5-byte frame whose
decoding fails with a short-command error.  In particular the round trip
does hold for empty payloads of the Info, Broadcast, Direct, Echo,
Feature and UDP kinds. -/
theorem adc_marshal_decode_roundtrip (p : Packet)
    (hwf : WellFormedB p = true) (hne : emptyPayloadHubOrClient p = false) :
    DecodePacket (MarshalPacket p) = .ok p := by
  cases p with
  | info n d =>
    simp only [WellFormedB, Bool.and_eq_true] at hwf
    exact roundtrip_info n d hwf.1 hwf.2
  | hub n d =>
    simp only [WellFormedB, Bool.and_eq_true] at hwf
    have hd : d ≠ [] := by
      intro he
      subst he
      simp [emptyPayloadHubOrClient] at hne
    exact roundtrip_hub n d hwf.1 hwf.2 hd
  | client n d =>
    simp only [WellFormedB, Bool.and_eq_true] at hwf
    have hd : d ≠ [] := by
      intro he
      subst he
      simp [emptyPayloadHubOrClient] at hne
    exact roundtrip_client n d hwf.1 hwf.2 hd
  | broadcast n sid d =>
    simp only [WellFormedB, Bool.and_eq_true] at hwf
    exact roundtrip_broadcast n sid d hwf.1.1 hwf.1.2 hwf.2
  | direct n sid targ d =>
    simp only [WellFormedB, Bool.and_eq_true] at hwf
    exact roundtrip_direct n sid targ d hwf.1.1.1 hwf.1.1.2 hwf.1.2 hwf.2
  | echo n sid targ d =>
    simp only [WellFormedB, Bool.and_eq_true] at hwf
    exact roundtrip_echo n sid targ d hwf.1.1.1 hwf.1.1.2 hwf.1.2 hwf.2
  | feature n sid fs d =>
    simp only [WellFormedB, Bool.and_eq_true] at hwf
    exact roundtrip_feature n sid fs d hwf.1.1.1.1 hwf.1.1.1.2 hwf.1.1.2 hwf.1.2 hwf.2
  | udp n cid d =>
    simp only [WellFormedB, Bool.and_eq_true] at hwf
    exact roundtrip_udp n cid d hwf.1.1 hwf.1.2 hwf.2

/-- C1 counterexample: the well-formed Hub and Client packets with name
INF and empty payload marshal to `HINF\x0a` / `CINF\x0a`, which
`DecodePacket` rejects, so `decode(encode(p)) = p` fails as stated. -/
theorem adc_roundtrip_fails_on_empty_hub_client :
    WellFormedB (.hub ⟨73, 78, 70⟩ []) = true ∧
    DecodePacket (MarshalPacket (.hub ⟨73, 78, 70⟩ [])) = .err "short hub command" ∧
    WellFormedB (.client ⟨73, 78, 70⟩ []) = true ∧
    DecodePacket (MarshalPacket (.client ⟨73, 78, 70⟩ [])) = .err "short client command" := by
  decide

/-- C1 witness: a concrete well-formed Feature packet with two feature
tokens and a payload round-trips. -/
theorem adc_marshal_decode_roundtrip_witness :
    WellFormedB (.feature ⟨83, 67, 72⟩ ⟨65, 66, 67, 68⟩
        [([84, 67, 80, 52], true), ([78, 65, 84, 48], false)] [84, 88]) = true ∧
    DecodePacket (MarshalPacket (.feature ⟨83, 67, 72⟩ ⟨65, 66, 67, 68⟩
        [([84, 67, 80, 52], true), ([78, 65, 84, 48], false)] [84, 88])) =
      .ok (.feature ⟨83, 67, 72⟩ ⟨65, 66, 67, 68⟩
        [([84, 67, 80, 52], true), ([78, 65, 84, 48], false)] [84, 88]) :=
  ⟨by decide, adc_marshal_decode_roundtrip _ (by decide) (by decide)⟩

/-- C3: the region after the source SID of a Feature frame is parsed as
the rendered feature tokens (one sigil and a 4-byte tag each, separated
by spaces) followed by the payload, which begins at the first non-space
byte that is not a sigil at token-start position; in particular the frame
`FSCH ABCD +TCP4 -NAT0 TR:xyz\x0a` decodes to the Feature packet with
source ABCD, TCP4 required, NAT0 forbidden, and payload `TR:xyz`. -/
theorem feature_filter_parsing (n : MsgType) (sid : SID) (fs : List (List Nat × Bool))
    (d : List Nat) (hn : n.wfB = true) (hs : sid.validB = true)
    (hfs : fs.all tagWfB = true) (hd : noNull d = true) (hph : payloadHeadOk d = true) :
    DecodePacket (kindFeature :: n.c1 :: n.c2 :: n.c3 :: spByte ::
        (sid.b1 :: sid.b2 :: sid.b3 :: sid.b4 ::
          (flatToks fs ++ tailPart d ++ [lineDelim]))) = .ok (.feature n sid fs d) ∧
    DecodePacket (strBytes "FSCH ABCD +TCP4 -NAT0 TR:xyz\x0a") =
      .ok (.feature ⟨83, 67, 72⟩ ⟨65, 66, 67, 68⟩
        [([84, 67, 80, 52], true), ([78, 65, 84, 48], false)] (strBytes "TR:xyz")) := by
  constructor
  · obtain ⟨n1, n2, n3⟩ := n
    obtain ⟨s1, s2, s3, s4⟩ := sid
    exact roundtrip_feature ⟨n1, n2, n3⟩ ⟨s1, s2, s3, s4⟩ fs d hn hs hfs hd hph
  · decide

/-- C3 witness: the theorem applied to a concrete single-token frame. -/
theorem feature_filter_parsing_witness :
    DecodePacket (kindFeature :: 83 :: 67 :: 72 :: spByte ::
        (65 :: 66 :: 67 :: 68 ::
          (flatToks [([84, 67, 80, 52], true)] ++ tailPart [84, 88] ++ [lineDelim]))) =
      .ok (.feature ⟨83, 67, 72⟩ ⟨65, 66, 67, 68⟩ [([84, 67, 80, 52], true)] [84, 88]) :=
  (feature_filter_parsing ⟨83, 67, 72⟩ ⟨65, 66, 67, 68⟩ [([84, 67, 80, 52], true)]
    [84, 88] (by decide) (by decide) (by decide) (by decide) (by decide)).1

/-- C2 (amended): a successful `DecodePacket` forces a null-free frame of
at least its kind's minimum length; a frame not ending in the line
delimiter is rejected, except when the kind byte is `I` and the fifth
byte is an early delimiter (or a space in a 5-byte frame), in which case
it decodes to an empty-payload Info packet.  Contrapositively, every
frame with a null byte or shorter than its kind's minimum is rejected,
and so is every frame without a final delimiter outside that Info
exception. -/
theorem decode_ok_necessary (p : List Nat) (q : Packet) (h : DecodePacket p = .ok q) :
    hasNull p = false ∧ minFrameLen (p.getD 0 0) ≤ p.length ∧
    (lastByteD p = lineDelim ∨
      (p.getD 0 0 = kindInfo ∧
        (p.getD 4 0 = lineDelim ∨ (p.getD 4 0 = spByte ∧ p.length = 5)))) := by
  match p with
  | [] => simp [DecodePacket] at h
  | [x1] => simp [DecodePacket] at h
  | [x1, x2] => simp [DecodePacket] at h
  | [x1, x2, x3] => simp [DecodePacket] at h
  | [x1, x2, x3, x4] => simp [DecodePacket] at h
  | k :: a :: b :: c :: c0 :: t =>
    have h5 : ¬ (k :: a :: b :: c :: c0 :: t).length < 5 := by simp
    have hnb : hasNull (k :: a :: b :: c :: c0 :: t) = false := by
      by_cases hx : hasNull (k :: a :: b :: c :: c0 :: t) = true
      · exfalso
        simp only [DecodePacket] at h
        rw [if_neg h5, if_pos hx] at h
        simp at h
      · simpa using hx
    have hkk : knownKindB k = true := by
      by_cases hk2 : knownKindB k = true
      · exact hk2
      · exfalso
        rw [DecodePacket_cons_unknown k a b c (c0 :: t) h5 hnb hk2] at h
        simp at h
    refine ⟨hnb, ?_⟩
    by_cases hsp : c0 = spByte
    · subst hsp
      have hpr : parseRaw (spByte :: t) = .ok t := by simp [parseRaw]
      rw [DecodePacket_cons k a b c (spByte :: t) t h5 hnb hkk hpr] at h
      by_cases e1 : k = kindInfo
      · subst e1
        rw [ubk_info] at h
        rcases info_ok_shape _ _ _ h with ht | ht
        · subst ht
          refine ⟨?_, Or.inr ⟨rfl, Or.inr ⟨rfl, rfl⟩⟩⟩
          rw [show ([kindInfo, a, b, c, spByte] : List Nat).getD 0 0 = kindInfo from rfl,
            show minFrameLen kindInfo = 5 from by decide]
          simp
        · cases t with
          | nil =>
            refine ⟨?_, Or.inr ⟨rfl, Or.inr ⟨rfl, rfl⟩⟩⟩
            rw [show ([kindInfo, a, b, c, spByte] : List Nat).getD 0 0 = kindInfo from rfl,
              show minFrameLen kindInfo = 5 from by decide]
            simp
          | cons y ys =>
            refine ⟨?_, Or.inl ?_⟩
            · rw [show (kindInfo :: a :: b :: c :: spByte :: y :: ys).getD 0 0 = kindInfo
                  from rfl,
                show minFrameLen kindInfo = 5 from by decide]
              simp only [List.length_cons]
              omega
            · rw [lastByte_shift5]
              exact ht
      by_cases e2 : k = kindHub
      · subst e2
        rw [ubk_hub] at h
        obtain ⟨hlt, hlast⟩ := hub_ok_shape _ _ _ h
        cases t with
        | nil => simp at hlt
        | cons y ys =>
          refine ⟨?_, Or.inl ?_⟩
          · rw [show (kindHub :: a :: b :: c :: spByte :: y :: ys).getD 0 0 = kindHub from rfl,
              show minFrameLen kindHub = 6 from by decide]
            simp only [List.length_cons] at hlt ⊢
            omega
          · rw [lastByte_shift5]
            exact hlast
      by_cases e3 : k = kindClient
      · subst e3
        rw [ubk_client] at h
        obtain ⟨hlt, hlast⟩ := client_ok_shape _ _ _ h
        cases t with
        | nil => simp at hlt
        | cons y ys =>
          refine ⟨?_, Or.inl ?_⟩
          · rw [show (kindClient :: a :: b :: c :: spByte :: y :: ys).getD 0 0 = kindClient from rfl,
              show minFrameLen kindClient = 6 from by decide]
            simp only [List.length_cons] at hlt ⊢
            omega
          · rw [lastByte_shift5]
            exact hlast
      by_cases e4 : k = kindBroadcast
      · subst e4
        rw [ubk_broadcast] at h
        obtain ⟨hlt, hlast⟩ := bcast_ok_shape _ _ _ h
        cases t with
        | nil => simp at hlt
        | cons y ys =>
          refine ⟨?_, Or.inl ?_⟩
          · rw [show (kindBroadcast :: a :: b :: c :: spByte :: y :: ys).getD 0 0 = kindBroadcast from rfl,
              show minFrameLen kindBroadcast = 10 from by decide]
            simp only [List.length_cons] at hlt ⊢
            omega
          · rw [lastByte_shift5]
            exact hlast
      by_cases e5 : k = kindFeature
      · subst e5
        rw [ubk_feature] at h
        obtain ⟨hlt, hlast⟩ := feature_ok_shape _ _ _ h
        cases t with
        | nil => simp at hlt
        | cons y ys =>
          refine ⟨?_, Or.inl ?_⟩
          · rw [show (kindFeature :: a :: b :: c :: spByte :: y :: ys).getD 0 0 = kindFeature from rfl,
              show minFrameLen kindFeature = 10 from by decide]
            simp only [List.length_cons] at hlt ⊢
            omega
          · rw [lastByte_shift5]
            exact hlast
      by_cases e6 : k = kindDirect
      · subst e6
        rw [ubk_direct] at h
        obtain ⟨hlt, hlast⟩ := direct_ok_shape _ _ _ h
        cases t with
        | nil => simp at hlt
        | cons y ys =>
          refine ⟨?_, Or.inl ?_⟩
          · rw [show (kindDirect :: a :: b :: c :: spByte :: y :: ys).getD 0 0 = kindDirect from rfl,
              show minFrameLen kindDirect = 15 from by decide]
            simp only [List.length_cons] at hlt ⊢
            omega
          · rw [lastByte_shift5]
            exact hlast
      by_cases e7 : k = kindEcho
      · subst e7
        rw [ubk_echo] at h
        obtain ⟨hlt, hlast⟩ := echo_ok_shape _ _ _ h
        cases t with
        | nil => simp at hlt
        | cons y ys =>
          refine ⟨?_, Or.inl ?_⟩
          · rw [show (kindEcho :: a :: b :: c :: spByte :: y :: ys).getD 0 0 = kindEcho from rfl,
              show minFrameLen kindEcho = 15 from by decide]
            simp only [List.length_cons] at hlt ⊢
            omega
          · rw [lastByte_shift5]
            exact hlast
      by_cases e8 : k = kindUDP
      · subst e8
        rw [ubk_udp] at h
        obtain ⟨hlt, hlast⟩ := udp_ok_shape _ _ _ h
        cases t with
        | nil => simp at hlt
        | cons y ys =>
          refine ⟨?_, Or.inl ?_⟩
          · rw [show (kindUDP :: a :: b :: c :: spByte :: y :: ys).getD 0 0 = kindUDP from rfl,
              show minFrameLen kindUDP = 45 from by decide]
            simp only [List.length_cons] at hlt ⊢
            omega
          · rw [lastByte_shift5]
            exact hlast
      exfalso
      simp [knownKindB, beq_iff_eq, e1, e2, e3, e4, e5, e6, e7, e8] at hkk
    · by_cases hlf : c0 = lineDelim
      · subst hlf
        have hpr : parseRaw (lineDelim :: t) = .ok [] := by
          simp [parseRaw, lineDelim, spByte]
        rw [DecodePacket_cons k a b c (lineDelim :: t) [] h5 hnb hkk hpr] at h
        by_cases e1 : k = kindInfo
        · subst e1
          refine ⟨?_, Or.inr ⟨rfl, Or.inl rfl⟩⟩
          rw [show (kindInfo :: a :: b :: c :: lineDelim :: t).getD 0 0 = kindInfo from rfl,
            show minFrameLen kindInfo = 5 from by decide]
          simp only [List.length_cons]
          omega
        by_cases e2 : k = kindHub
        · subst e2
          rw [ubk_hub] at h
          obtain ⟨hlt, hl2⟩ := hub_ok_shape _ _ _ h
          simp at hlt
        by_cases e3 : k = kindClient
        · subst e3
          rw [ubk_client] at h
          obtain ⟨hlt, hl2⟩ := client_ok_shape _ _ _ h
          simp at hlt
        by_cases e4 : k = kindBroadcast
        · subst e4
          rw [ubk_broadcast] at h
          obtain ⟨hlt, hl2⟩ := bcast_ok_shape _ _ _ h
          simp at hlt
        by_cases e5 : k = kindFeature
        · subst e5
          rw [ubk_feature] at h
          obtain ⟨hlt, hl2⟩ := feature_ok_shape _ _ _ h
          simp at hlt
        by_cases e6 : k = kindDirect
        · subst e6
          rw [ubk_direct] at h
          obtain ⟨hlt, hl2⟩ := direct_ok_shape _ _ _ h
          simp at hlt
        by_cases e7 : k = kindEcho
        · subst e7
          rw [ubk_echo] at h
          obtain ⟨hlt, hl2⟩ := echo_ok_shape _ _ _ h
          simp at hlt
        by_cases e8 : k = kindUDP
        · subst e8
          rw [ubk_udp] at h
          obtain ⟨hlt, hl2⟩ := udp_ok_shape _ _ _ h
          simp at hlt
        exfalso
        simp [knownKindB, beq_iff_eq, e1, e2, e3, e4, e5, e6, e7, e8] at hkk
      · have hpr : parseRaw (c0 :: t) = .err "name separator expected" := by
          simp [parseRaw, hsp, hlf]
        rw [DecodePacket_cons_badsep k a b c (c0 :: t) _ h5 hnb hkk hpr] at h
        simp at h

/-- C2 counterexample: the 5-byte frame `IINF ` (trailing space) and the
frame `IINF\x0aXY` both lack the final delimiter yet decode successfully
to an empty-payload Info packet, so the claim that every frame lacking
the final newline is rejected is false. -/
theorem decode_accepts_without_delimiter :
    DecodePacket [73, 73, 78, 70, 32] = .ok (.info ⟨73, 78, 70⟩ []) ∧
    lastByteD [73, 73, 78, 70, 32] ≠ lineDelim ∧
    DecodePacket [73, 73, 78, 70, 10, 88, 89] = .ok (.info ⟨73, 78, 70⟩ []) ∧
    lastByteD [73, 73, 78, 70, 10, 88, 89] ≠ lineDelim := by
  decide

/-- C2 witness: the necessary conditions evaluated on a decoded
broadcast frame. -/
theorem decode_ok_necessary_witness :
    hasNull [66, 77, 83, 71, 32, 65, 66, 67, 68, 32, 104, 105, 10] = false ∧
    minFrameLen ([66, 77, 83, 71, 32, 65, 66, 67, 68, 32, 104, 105, 10].getD 0 0) ≤
      [66, 77, 83, 71, 32, 65, 66, 67, 68, 32, 104, 105, 10].length ∧
    (lastByteD [66, 77, 83, 71, 32, 65, 66, 67, 68, 32, 104, 105, 10] = lineDelim ∨
      ([66, 77, 83, 71, 32, 65, 66, 67, 68, 32, 104, 105, 10].getD 0 0 = kindInfo ∧
        ([66, 77, 83, 71, 32, 65, 66, 67, 68, 32, 104, 105, 10].getD 4 0 = lineDelim ∨
          ([66, 77, 83, 71, 32, 65, 66, 67, 68, 32, 104, 105, 10].getD 4 0 = spByte ∧
            [66, 77, 83, 71, 32, 65, 66, 67, 68, 32, 104, 105, 10].length = 5)))) :=
  decode_ok_necessary _ (.broadcast ⟨77, 83, 71⟩ ⟨65, 66, 67, 68⟩ [104, 105]) (by decide)

/-- C10: `DecodePacket` is not total: a Feature frame whose trailing
feature token has 2 tag bytes leaves 3 bytes from the sigil, and the
error path `string(data[i : i+5])` overruns the slice capacity -- a
runtime panic.  With 3 tag bytes (4 bytes from the sigil) the slice
still fits the one-byte spare capacity and a descriptive error is
returned. -/
theorem decode_crash_truncated_feature :
    DecodePacket (strBytes "FSCH AAAA +TC\x0a") = .crash ∧
    DecodePacket (strBytes "FSCH AAAA +TCP\x0a") = .err "short feature" := by
  decide

/-! ### Whitespace-trimming characterisation for the nickname rules -/

lemma dw_len_le (p : Char → Bool) (l : List Char) :
    (l.dropWhile p).length ≤ l.length := by
  induction l with
  | nil => simp
  | cons a t ih =>
    rw [List.dropWhile_cons]
    by_cases hp : p a = true
    · rw [if_pos hp]
      simp only [List.length_cons]
      omega
    · rw [if_neg hp]

lemma dropWhile_head_false (p : Char → Bool) (l : List Char) (y : Char) (ys : List Char)
    (h : l.dropWhile p = y :: ys) : p y = false := by
  induction l with
  | nil => simp at h
  | cons a t ih =>
    rw [List.dropWhile_cons] at h
    by_cases hp : p a = true
    · rw [if_pos hp] at h
      exact ih h
    · rw [if_neg hp] at h
      cases h
      revert hp
      cases p y <;> simp

/-- `strings.TrimSpace` leaves a nonempty string unchanged exactly when
neither its first nor its last character is whitespace. -/
lemma trim_fix_iff (x : Char) (xs : List Char) :
    goTrimList (x :: xs) = x :: xs ↔
      (goIsSpace ((x :: xs).headD ' ') = false ∧
       goIsSpace ((x :: xs).getLastD ' ') = false) := by
  have hrevne : (x :: xs).reverse ≠ [] := by simp
  obtain ⟨y, ys, hrev⟩ := List.exists_cons_of_ne_nil hrevne
  have hlast : (x :: xs).getLastD ' ' = y := by
    have hq : (x :: xs).getLast? = some y := by
      rw [← List.head?_reverse, hrev]
      rfl
    rw [List.getLastD_eq_getLast?, hq]
    rfl
  constructor
  · intro h
    constructor
    · show goIsSpace x = false
      by_contra hpx
      have hpx2 : goIsSpace x = true := by
        revert hpx
        cases goIsSpace x <;> simp
      have hlen := congrArg List.length h
      unfold goTrimList at hlen
      rw [List.dropWhile_cons, if_pos hpx2] at hlen
      have d1 : ((xs.dropWhile goIsSpace).reverse.dropWhile goIsSpace).length ≤
          (xs.dropWhile goIsSpace).reverse.length := dw_len_le _ _
      have d2 : (xs.dropWhile goIsSpace).length ≤ xs.length := dw_len_le _ _
      simp only [List.length_reverse, List.length_cons] at hlen d1
      omega
    · rw [hlast]
      unfold goTrimList at h
      have h2 := congrArg List.reverse h
      rw [List.reverse_reverse] at h2
      rw [hrev] at h2
      exact dropWhile_head_false _ _ _ _ h2
  · intro he
    have hx0 : goIsSpace x = false := he.1
    have hdw1 : (x :: xs).dropWhile goIsSpace = x :: xs := by
      rw [List.dropWhile_cons, if_neg (by simp [hx0])]
    have hy : goIsSpace y = false := by
      rw [hlast] at he
      exact he.2
    unfold goTrimList
    rw [hdw1, hrev, List.dropWhile_cons, if_neg (by simp [hy]), ← hrev,
      List.reverse_reverse]

/-- C7 counterexample: the non-printable one-byte name `\x01` passes
`validateUserName`, but the spec's Nickname rules require a printable
string, so the as-stated equivalence (accept iff printable and the other
rules) fails. -/
theorem nick_printability_not_enforced :
    validateUserName ⟨[Char.ofNat 1]⟩ = none ∧
    specPrintable ⟨[Char.ofNat 1]⟩ = false := by
  decide

/-- C7 (amended): `validateUserName` accepts a name exactly when it is
non-empty, does not start with `#` or `!`, and has no leading or
trailing whitespace; printability is not checked, and the validator is a
pure function of the name by construction. -/
theorem validateUserName_spec (n : String) :
    validateUserName n = none ↔
      (n.toList ≠ [] ∧ n.toList.headD ' ' ≠ '#' ∧ n.toList.headD ' ' ≠ '!' ∧
       goIsSpace (n.toList.headD ' ') = false ∧
       goIsSpace (n.toList.getLastD ' ') = false) := by
  by_cases h0 : n.toList = []
  · simp only [validateUserName, if_pos h0]
    exact ⟨fun hv => absurd hv (by simp), fun hv => absurd h0 hv.1⟩
  obtain ⟨x, xs, hx⟩ := List.exists_cons_of_ne_nil h0
  by_cases h1 : n.toList.headD ' ' = '#'
  · simp only [validateUserName, if_neg h0, if_pos h1]
    exact ⟨fun hv => absurd hv (by simp), fun hv => absurd h1 hv.2.1⟩
  by_cases h2 : n.toList.headD ' ' = '!'
  · simp only [validateUserName, if_neg h0, if_neg h1, if_pos h2]
    exact ⟨fun hv => absurd hv (by simp), fun hv => absurd h2 hv.2.2.1⟩
  simp only [validateUserName, if_neg h0, if_neg h1, if_neg h2]
  rw [hx] at h0 h1 h2 ⊢
  by_cases h3 : (x :: xs) ≠ goTrimList (x :: xs)
  · rw [if_pos h3]
    have hne : ¬ (goIsSpace ((x :: xs).headD ' ') = false ∧
        goIsSpace ((x :: xs).getLastD ' ') = false) := by
      intro he
      exact h3 ((trim_fix_iff x xs).mpr he).symm
    constructor
    · intro hv
      simp at hv
    · intro hv
      exact absurd ⟨hv.2.2.2.1, hv.2.2.2.2⟩ hne
  · rw [if_neg h3]
    have heq : goTrimList (x :: xs) = x :: xs := (Decidable.not_not.mp h3).symm
    have hedges := (trim_fix_iff x xs).mp heq
    constructor
    · intro _
      exact ⟨by simp, h1, h2, hedges.1, hedges.2⟩
    · intro _
      rfl

/-- C7 witness: the amended equivalence evaluated at a concrete accepted
name. -/
theorem validateUserName_spec_witness :
    ("alice".toList ≠ [] ∧ "alice".toList.headD ' ' ≠ '#' ∧
     "alice".toList.headD ' ' ≠ '!' ∧
     goIsSpace ("alice".toList.headD ' ') = false ∧
     goIsSpace ("alice".toList.getLastD ' ') = false) :=
  (validateUserName_spec "alice").mp (by decide)

/-! ### IRC adapter claims -/

/-- C4 counterexample: a first NICK whose name fails validation aborts
the handshake with the validation error and sends no 433, even though a
valid NICK follows in the input; the claim that every failed attempt is
answered with 433 and the loop continues is false for validation
failures. -/
theorem irc_nick_validation_aborts :
    nickLoop ⟨"h", "", ""⟩ [] 3
      [⟨none, "NICK", ["#bad"]⟩, ⟨none, "USER", ["u", "0", "*", "r"]⟩,
        ⟨none, "NICK", ["bob"]⟩] "" "" [] =
      .failed "name should not start with #" [] := by
  decide

/-- C4 (amended): in the IRC handshake NICK loop, a name that fails
validation aborts the handshake with the validation error and no 433
reply (first and subsequent iterations alike), while a name that is
valid but unavailable is answered with exactly one 433 reply carrying
the name and reason, after which the loop continues on the remaining
input. -/
theorem irc_nick_retry_amended :
    (∀ (hp : IrcPref) (taken : List String) (f : Nat) (rest : List IrcMsg)
        (prev user : String) (sent : List IrcMsg) (nm e : String),
        prev ≠ "" → validateUserName nm = some e →
      nickLoop hp taken (f + 1) (⟨none, "NICK", [nm]⟩ :: rest) prev user sent =
        .failed e sent) ∧
    (∀ (hp : IrcPref) (taken : List String) (f : Nat) (rest2 : List IrcMsg)
        (user0 : String) (sent : List IrcMsg) (nm e u p2 p3 p4 : String),
        validateUserName nm = some e →
      nickLoop hp taken (f + 1)
          (⟨none, "NICK", [nm]⟩ :: ⟨none, "USER", [u, p2, p3, p4]⟩ :: rest2) "" user0 sent =
        .failed e sent) ∧
    (∀ (hp : IrcPref) (taken : List String) (f : Nat) (rest : List IrcMsg)
        (prev user : String) (sent : List IrcMsg) (nm : String),
        prev ≠ "" → validateUserName nm = none → taken.contains nm = true →
      nickLoop hp taken (f + 1) (⟨none, "NICK", [nm]⟩ :: rest) prev user sent =
        nickLoop hp taken f rest nm user (sent ++ [mk433 hp nm])) ∧
    (∀ (hp : IrcPref) (taken : List String) (f : Nat) (rest2 : List IrcMsg)
        (user0 : String) (sent : List IrcMsg) (nm u p2 p3 p4 : String),
        validateUserName nm = none → taken.contains nm = true →
      nickLoop hp taken (f + 1)
          (⟨none, "NICK", [nm]⟩ :: ⟨none, "USER", [u, p2, p3, p4]⟩ :: rest2) "" user0 sent =
        nickLoop hp taken f rest2 nm u (sent ++ [mk433 hp nm])) := by
  refine ⟨?_, ?_, ?_, ?_⟩
  · intro hp taken f rest prev user sent nm e hprev hval
    simp [nickLoop, hprev, hval]
  · intro hp taken f rest2 user0 sent nm e u p2 p3 p4 hval
    simp [nickLoop, hval]
  · intro hp taken f rest prev user sent nm hprev hval htk
    have hmem : nm ∈ taken := by simpa using htk
    simp [nickLoop, hprev, hval, nameAvailable, reserveOk, hmem]
  · intro hp taken f rest2 user0 sent nm u p2 p3 p4 hval htk
    have hmem : nm ∈ taken := by simpa using htk
    simp [nickLoop, hval, nameAvailable, reserveOk, hmem]

/-- C4 witness: a taken name is answered with one 433 and the loop
continues on the remaining input. -/
theorem irc_nick_retry_amended_witness :
    nickLoop ⟨"h", "", ""⟩ ["alice"] 1 [⟨none, "NICK", ["alice"]⟩] "bob" "u" [] =
      nickLoop ⟨"h", "", ""⟩ ["alice"] 0 [] "alice" "u" [mk433 ⟨"h", "", ""⟩ "alice"] :=
  irc_nick_retry_amended.2.2.1 ⟨"h", "", ""⟩ ["alice"] 0 [] "bob" "u" [] "alice"
    (by decide) (by decide) (by decide)

/-- C5: `ircPeer.Close` on an already-closed peer returns nil and changes
nothing; from a fresh peer, any positive number of Close calls closes the
connection and invokes the hub leave exactly once, and a further Close is
a nil-returning no-op. -/
theorem irc_close_idempotent :
    (∀ (e : Option String) (s : IrcPeerLife), s.closed = true →
      ircPeer.Close e s = (s, none)) ∧
    (∀ (e : Option String) (n : Nat),
      (closeIter e (n + 1) ⟨false, 0, 0⟩).connCloses = 1 ∧
      (closeIter e (n + 1) ⟨false, 0, 0⟩).leaves = 1 ∧
      ircPeer.Close e (closeIter e (n + 1) ⟨false, 0, 0⟩) =
        (closeIter e (n + 1) ⟨false, 0, 0⟩, none)) := by
  have hfix : ∀ (e : Option String) (n : Nat) (s : IrcPeerLife), s.closed = true →
      closeIter e n s = s := by
    intro e n
    induction n with
    | zero => intro s _; rfl
    | succ m ih =>
      intro s hs
      simp only [closeIter, ircPeer.Close, if_pos hs]
      exact ih s hs
  have hone : ∀ (e : Option String) (n : Nat),
      closeIter e (n + 1) ⟨false, 0, 0⟩ = ⟨true, 1, 1⟩ := by
    intro e n
    simp only [closeIter, ircPeer.Close]
    rw [if_neg (by simp)]
    exact hfix e n ⟨true, 1, 1⟩ rfl
  refine ⟨?_, ?_⟩
  · intro e s hs
    simp [ircPeer.Close, hs]
  · intro e n
    rw [hone e n]
    exact ⟨rfl, rfl, by simp [ircPeer.Close]⟩

/-- C5 witness: closing an already-closed peer is a nil no-op. -/
theorem irc_close_idempotent_witness :
    ircPeer.Close (some "reset") ⟨true, 1, 1⟩ = (⟨true, 1, 1⟩, none) :=
  irc_close_idempotent.1 (some "reset") ⟨true, 1, 1⟩ (by decide)

/-- C6: `ircPeer.ChatMsg` on the main room returns nil and writes nothing
when the sender is the peer itself, and writes exactly one PRIVMSG to the
#hub channel for any other sender. -/
theorem irc_chat_no_echo :
    (∀ (we : Option String) (p : PeerRef) (host mn mt : String),
      ircPeer.ChatMsg we p host "" p mn mt = ([], none)) ∧
    (∀ (we : Option String) (p sender : PeerRef) (host mn mt : String),
      sender.pid ≠ p.pid →
      (ircPeer.ChatMsg we p host "" sender mn mt).1 =
        [⟨some (if sender.isIrc then sender.ownPref else ⟨mn, mn, host⟩), "PRIVMSG",
          [ircHubChan, mt]⟩]) := by
  refine ⟨?_, ?_⟩
  · intro we p host mn mt
    simp [ircPeer.ChatMsg]
  · intro we p sender host mn mt hne
    have h2 : ¬ p.pid = sender.pid := fun hh => hne hh.symm
    simp [ircPeer.ChatMsg, h2]

/-- C6 witness: a message from a distinct non-IRC sender is written as
one PRIVMSG to #hub with a constructed prefix. -/
theorem irc_chat_no_echo_witness :
    (ircPeer.ChatMsg none ⟨1, true, ⟨"p", "p", "h"⟩⟩ "host" ""
        ⟨2, false, ⟨"q", "q", "h"⟩⟩ "bob" "hi").1 =
      [⟨some (if (⟨2, false, ⟨"q", "q", "h"⟩⟩ : PeerRef).isIrc then
          (⟨2, false, ⟨"q", "q", "h"⟩⟩ : PeerRef).ownPref
        else ⟨"bob", "bob", "host"⟩), "PRIVMSG", [ircHubChan, "hi"]⟩] :=
  irc_chat_no_echo.2 none ⟨1, true, ⟨"p", "p", "h"⟩⟩ ⟨2, false, ⟨"q", "q", "h"⟩⟩
    "host" "bob" "hi" (by decide)

/-- C8: a PRIVMSG to a nickname with no live peer is silently dropped:
the serve loop continues with no events, no error and no bounce; when the
target exists, exactly its PrivateMsg is invoked with the sender's
current name on the message. -/
theorem irc_privmsg_routing :
    (∀ (byName : String → Option Nat) (sid : Nat) (sname dst text : String),
      dst ≠ ircHubChan → byName dst = none →
      servePrivmsgStep byName sid sname [dst, text] = .cont []) ∧
    (∀ (byName : String → Option Nat) (sid : Nat) (sname dst text : String) (tid : Nat),
      dst ≠ ircHubChan → byName dst = some tid →
      servePrivmsgStep byName sid sname [dst, text] =
        .cont [.privateTo tid sid sname text]) := by
  refine ⟨?_, ?_⟩
  · intro byName sid sname dst text hdst hby
    simp [servePrivmsgStep, hdst, hby]
  · intro byName sid sname dst text tid hdst hby
    simp [servePrivmsgStep, hdst, hby]

/-- C8 witness: routing evaluated against a concrete one-entry name
directory. -/
theorem irc_privmsg_routing_witness :
    servePrivmsgStep (fun n => if n = "bob" then some 7 else none) 3 "alice"
        ["carol", "hi"] = .cont [] ∧
    servePrivmsgStep (fun n => if n = "bob" then some 7 else none) 3 "alice"
        ["bob", "hi"] = .cont [.privateTo 7 3 "alice" "hi"] :=
  ⟨irc_privmsg_routing.1 _ 3 "alice" "carol" "hi" (by decide) (by decide),
   irc_privmsg_routing.2 _ 3 "alice" "bob" "hi" 7 (by decide) (by decide)⟩

/-- C9: with no user database configured, `RegisterUser` returns the
registration-disabled error for every name and password (and, being a
pure function of its arguments, changes nothing); with a database
present it returns exactly the database's result. -/
theorem register_user_spec :
    (∀ (name pass : String),
      Hub.RegisterUser none name pass = .fail ErrUserRegDisabled) ∧
    (∀ (db : String → String → RegResult) (name pass : String),
      Hub.RegisterUser (some db) name pass = db name pass) :=
  ⟨fun _ _ => rfl, fun _ _ _ => rfl⟩

end GoDC
